import Mathlib

/-! Service-up orchestrator of the compose layer (`pkg/composer/up_service.go`).

The file embeds the four functions of `up_service.go`:
`executeUpCmd`, `ensureServiceImage`, `upServiceContainer` and `upServices`.

Every call that leaves the process (engine command, image operation, file
system operation, log attach, stop) is a `Request`; a function of the source
becomes a `Prog`, a tree that issues requests and continues with the answer.
`Prog.run` executes such a tree against an `Engine` (an arbitrary,
history-dependent oracle that answers requests) and records the requests in
issue order.  The goroutines of one `errgroup` batch are executed by
`runBatch`, which interleaves their requests under an arbitrary schedule.
Logging calls are not modelled.
-/

namespace UpService

/-! ## Data model -/

/-- Go `error` values: `errors.New`/`fmt.Errorf` without `%w` give `new`;
`fmt.Errorf(format, arg, err)` with a `%w` verb gives `errorf`. -/
inductive Err where
  | new (msg : String)
  | errorf (format : String) (arg : String) (wrapped : Err)
  deriving DecidableEq, Repr

/-- The fields of `serviceparser.Build` (only `Force` is read here). -/
structure Build where
  Force : Bool
  BuildArgs : List String
  deriving DecidableEq, Repr

/-- The fields of `serviceparser.Container` read by this file. -/
structure Container where
  Name : String
  RunArgs : List String
  Mkdir : List String
  deriving DecidableEq, Repr

/-- The fields of `ps.Unparsed` (the compose service config) read by this file. -/
structure Unparsed where
  Name : String
  Platform : String
  StdinOpen : Bool
  Tty : Bool
  deriving DecidableEq, Repr

/-- The fields of `serviceparser.Service` read by this file; `Build = none` is the nil pointer. -/
structure Service where
  Image : String
  PullMode : String
  Containers : List Container
  Build : Option Build
  Unparsed : Unparsed
  deriving DecidableEq, Repr

/-- `BuildOptions`; this file only constructs its zero value. -/
structure BuildOptions where
  Args : List String
  deriving DecidableEq, Repr

/-- The options of `up` read by `upServices`. -/
structure UpOptions where
  AbortOnContainerExit : Bool
  Detach : Bool
  NoBuild : Bool
  NoColor : Bool
  NoLogPrefix : Bool
  ForceBuild : Bool
  QuietPull : Bool
  Pull : String
  deriving DecidableEq, Repr

/-- `LogsOptions` as filled in by `upServices`. -/
structure LogsOptions where
  AbortOnContainerExit : Bool
  Follow : Bool
  NoColor : Bool
  NoLogPrefix : Bool
  LatestRun : Bool
  deriving DecidableEq, Repr

deriving instance DecidableEq for Except

/-- The registry `map[string]serviceparser.Container` (key: container ID) as an
association list with pairwise distinct keys; the order carries no meaning. -/
abbrev Registry := List (String × Container)

/-- The assignment `containers[id] = container` of a Go map: an existing entry
for `id` is replaced. -/
def Registry.set (m : Registry) (id : String) (ct : Container) : Registry :=
  (id, ct) :: m.filter (fun p => p.1 != id)

/-- The keys of the registry. -/
def Registry.keys (m : Registry) : List String := m.map Prod.fst

/-- The receiver fields of `Composer` read by this file. -/
structure Composer where
  EnvFile : String
  projectName : String
  DebugPrintFull : Bool
  deriving DecidableEq, Repr

/-- Declarations of the repository that this file uses and that live in other
files: the constant `RecreateNever`, the method `UpOptions.recreateStrategy`
and the label keys `labels.ComposeProject`, `labels.ComposeService`.  They are
parameters of the development. -/
structure Decls where
  RecreateNever : String
  recreateStrategy : UpOptions → String
  ComposeProject : String
  ComposeService : String

/-! ## Requests to the outside world -/

/-- One call that leaves the process.  `cmdRun args stdin stdout stderr` is
`cmd.Run()` for `cmd = c.createNerdctlCmd(ctx, args...)` with the three
standard streams connected to the ones of the invoking process or not. -/
inductive Request where
  | imageExists (image : String)
  | buildServiceImage (image : String) (b : Build) (platform : String) (bo : BuildOptions)
  | ensureImage (image pullMode platform : String) (ps : Service) (quiet : Bool)
  | containerID (name service : String)
  | cmdRun (args : List String) (stdin stdout stderr : Bool)
  | mkdirAll (path : String) (perm : Nat)
  | mkdirTemp (pattern : String)
  | removeAll (path : String)
  | readFile (path : String)
  | logs (lo : LogsOptions) (services : List String)
  | stopContainers (containers : Registry)
  deriving DecidableEq, Repr

/-- The type of the answer to a request: `Option Err` is a Go `error`
(`none` is `nil`), `Except Err α` is a Go `(α, error)`. -/
@[reducible] def Request.Resp : Request → Type
  | .imageExists _ => Except Err Bool
  | .buildServiceImage _ _ _ _ => Option Err
  | .ensureImage _ _ _ _ _ => Option Err
  | .containerID _ _ => Except Err String
  | .cmdRun _ _ _ _ => Option Err
  | .mkdirAll _ _ => Option Err
  | .mkdirTemp _ => Except Err String
  | .removeAll _ => Unit
  | .readFile _ => Except Err String
  | .logs _ _ => Option Err
  | .stopContainers _ => Unit

/-- The requests issued so far, oldest first. -/
abbrev Trace := List Request

/-- The outside world: it answers a request, and the answer may depend on
everything that was requested before. -/
abbrev Engine := Trace → (r : Request) → r.Resp

/-- A sequential piece of code: it returns, or issues a request and goes on
with the answer. -/
inductive Prog (α : Type) where
  | ret (a : α)
  | call (r : Request) (k : r.Resp → Prog α)

/-- Sequencing. -/
def Prog.bind {α β : Type} : Prog α → (α → Prog β) → Prog β
  | .ret a, f => f a
  | .call r k, f => .call r (fun x => (k x).bind f)

/-- Run a piece of code to completion against the engine. -/
def Prog.run {α : Type} (E : Engine) : Prog α → Trace → α × Trace
  | .ret a, tr => (a, tr)
  | .call r k, tr => (k (E tr r)).run E (tr ++ [r])

/-! ## Library functions -/

/-- Go `unicode.IsSpace`. -/
def isSpace (ch : Char) : Bool :=
  let n := ch.toNat
  n == 0x09 || n == 0x0A || n == 0x0B || n == 0x0C || n == 0x0D || n == 0x20 ||
  n == 0x85 || n == 0xA0 || n == 0x1680 || (0x2000 ≤ n && n ≤ 0x200A) ||
  n == 0x2028 || n == 0x2029 || n == 0x202F || n == 0x205F || n == 0x3000

/-- Go `strings.TrimSpace`. -/
def trimSpace (s : String) : String :=
  String.mk ((s.data.dropWhile isSpace).reverse.dropWhile isSpace).reverse

/-- The elements of a path between its separators `/` (Go reads the path
byte by byte; the separator is ASCII, so the elements are the same). -/
def pathElems : List Char → List (List Char)
  | [] => [[]]
  | ch :: rest =>
    if ch = '/' then [] :: pathElems rest
    else
      match pathElems rest with
      | [] => [[ch]]
      | e :: es => (ch :: e) :: es

/-- One element in the loop of Go `filepath.Clean`; `out` holds the elements
written so far, last one first.  An empty element and `.` are skipped; `..`
removes the last element when there is one to backtrack over, is kept on a
path that is not rooted, and is dropped at the root; any other element is
written. -/
def cleanStep (rooted : Bool) (out : List (List Char)) (e : List Char) : List (List Char) :=
  if e = [] || e = ['.'] then out
  else if e = ['.', '.'] then
    match out with
    | [] => if rooted then [] else [e]
    | top :: rest => if top = ['.', '.'] then e :: out else rest
  else e :: out

/-- The elements joined with `/`. -/
def joinElems : List (List Char) → List Char
  | [] => []
  | [e] => e
  | e :: es => e ++ '/' :: joinElems es

/-- Go `filepath.Clean` on Unix: the empty path becomes `.`, a rooted path keeps
its leading `/`, and a path that is cleaned to nothing becomes `.`. -/
def filepathClean (path : String) : String :=
  match path.data with
  | [] => "."
  | ch :: rest =>
    let rooted : Bool := ch = '/'
    let out := ((pathElems (ch :: rest)).foldl (cleanStep rooted) []).reverse
    if rooted then String.mk ('/' :: joinElems out)
    else if out = [] then "."
    else String.mk (joinElems out)

/-- Go `filepath.Join(dir, name)` on Unix: the non-empty arguments are joined
with `/` and the result is cleaned; with both empty the result is empty. -/
def filepathJoin (dir name : String) : String :=
  if dir != "" then filepathClean (dir ++ "/" ++ name)
  else if name != "" then filepathClean name
  else ""

/-! ## The functions of `up_service.go` -/

/-- Source `executeUpCmd`; the command `cmd` is given by its arguments. -/
def executeUpCmd (_c : Composer) (cmd : List String) (containerName : String)
    (runFlagD stdinOpen : Bool) : Prog (Option Err) :=
  .call (.cmdRun cmd stdinOpen (!runFlagD) true) fun r =>
    match r with
    | some err => .ret (some (.errorf "error while creating container %s: %w" containerName err))
    | none => .ret none

/-- Source `ensureServiceImage`. -/
def ensureServiceImage (_c : Composer) (ps : Service) (allowBuild forceBuild : Bool)
    (bo : BuildOptions) (quiet : Bool) (pullModeArg : String) : Prog (Option Err) :=
  let ensure : Prog (Option Err) :=
    if pullModeArg != "" then
      .call (.ensureImage ps.Image pullModeArg ps.Unparsed.Platform ps quiet) fun r => .ret r
    else
      .call (.ensureImage ps.Image ps.PullMode ps.Unparsed.Platform ps quiet) fun r => .ret r
  match ps.Build with
  | some b =>
    if allowBuild then
      if b.Force || forceBuild then
        .call (.buildServiceImage ps.Image b ps.Unparsed.Platform bo) fun r => .ret r
      else
        .call (.imageExists ps.Image) fun r =>
          match r with
          | .error err => .ret (some err)
          | .ok false =>
            .call (.buildServiceImage ps.Image b ps.Unparsed.Platform bo) fun r => .ret r
          | .ok true => ensure
    else ensure
  | none => ensure

/-- The requests of the loop over `container.Mkdir` when no directory creation fails. -/
def mkdirReqs (fs : List String) : List Request := fs.map (fun f => .mkdirAll f 0o755)

/-- The loop over `container.Mkdir` in `upServiceContainer`. -/
def mkdirLoop : List String → Prog (Option Err)
  | [] => .ret none
  | f :: fs =>
    .call (.mkdirAll f 0o755) fun r =>
      match r with
      | some err => .ret (some (.errorf "failed to create a directory %q: %w" f err))
      | none => mkdirLoop fs

/-- The arguments of the `run` command as assembled in `upServiceContainer`
(lines 141-145 and 180-193): `runArgs` is `container.RunArgs` after the
detach flag was prepended. -/
def createArgs (d : Decls) (c : Composer) (service : Service) (runArgs : List String)
    (cidFilename : String) : List String :=
  let runArgs := if c.EnvFile != "" then ("--env-file=" ++ c.EnvFile) :: runArgs else runArgs
  let runArgs :=
    ["--cidfile=" ++ cidFilename,
     "-l=" ++ d.ComposeProject ++ "=" ++ c.projectName,
     "-l=" ++ d.ComposeService ++ "=" ++ service.Unparsed.Name] ++ runArgs
  "run" :: runArgs

/-- Source `upServiceContainer`. -/
def upServiceContainer (d : Decls) (c : Composer) (service : Service) (container : Container)
    (recreate : String) : Prog (Except Err String) :=
  .call (.containerID container.Name service.Unparsed.Name) fun r =>
    match r with
    | .error err =>
      .ret (.error (.errorf "error while checking for containers with name %q: %w"
        container.Name err))
    | .ok existingCid =>
      if service.Unparsed.StdinOpen != service.Unparsed.Tty then
        .ret (.error (.new "currently StdinOpen(-i) and Tty(-t) should be same"))
      else
        let runFlagD : Bool := !service.Unparsed.StdinOpen && !service.Unparsed.Tty
        let runArgs : List String :=
          if runFlagD then "-d" :: container.RunArgs else container.RunArgs
        if existingCid != "" && recreate == d.RecreateNever then
          (executeUpCmd c ["start", existingCid] container.Name runFlagD
              service.Unparsed.StdinOpen).bind fun r =>
            match r with
            | some err =>
              .ret (.error (.errorf "error while starting existing container %s: %w"
                container.Name err))
            | none => .ret (.ok existingCid)
        else
          let del : Prog (Option Err) :=
            if existingCid != "" then
              .call (.cmdRun ["rm", "-f", container.Name] false false false) fun r =>
                match r with
                | some err =>
                  .ret (some (.errorf "could not delete container %q: %w" container.Name err))
                | none => .ret none
            else .ret none
          del.bind fun r =>
            match r with
            | some err => .ret (.error err)
            | none =>
              (mkdirLoop container.Mkdir).bind fun r =>
                match r with
                | some err => .ret (.error err)
                | none =>
                  .call (.mkdirTemp "compose-") fun r =>
                    match r with
                    | .error err =>
                      .ret (.error (.errorf
                        "error while creating/re-creating container %s: %w" container.Name err))
                    | .ok tempDir =>
                      let cidFilename := filepathJoin tempDir "cid"
                      let body : Prog (Except Err String) :=
                        (executeUpCmd c (createArgs d c service runArgs cidFilename)
                            container.Name runFlagD service.Unparsed.StdinOpen).bind fun r =>
                          match r with
                          | some err =>
                            .ret (.error (.errorf "error while creating container %s: %w"
                              container.Name err))
                          | none =>
                            .call (.readFile cidFilename) fun r =>
                              match r with
                              | .error err =>
                                .ret (.error (.errorf "error while creating container %s: %w"
                                  container.Name err))
                              | .ok cid => .ret (.ok (trimSpace cid))
                      -- defer os.RemoveAll(tempDir)
                      body.bind fun res => .call (.removeAll tempDir) fun _ => .ret res



/-! ## The orchestrator `upServices` -/

/-- The provisioning loop of `upServices` (lines 44-48). -/
def ensureLoop (c : Composer) (uo : UpOptions) : List Service → Prog (Option Err)
  | [] => .ret none
  | ps :: rest =>
    (ensureServiceImage c ps (!uo.NoBuild) uo.ForceBuild { Args := [] } uo.QuietPull
        uo.Pull).bind fun r =>
      match r with
      | some err => .ret (some err)
      | none => ensureLoop c uo rest

/-- A goroutine started by `runEG.Go`: it is still executing the launcher for
its container (the rest of the launcher is `p`), or it has returned. -/
inductive Task where
  | running (container : Container) (p : Prog (Except Err String))
  | done

/-- What the goroutines of one batch share: the registry `containers`
(guarded by `containersMu`), the error kept by the errgroup, and the trace.
`outcomes` lists, in the order of their return, the container and the
launcher result of every goroutine that has returned; it is bookkeeping for
the statements and is never read by the code. -/
structure Batch where
  containers : Registry
  err : Option Err
  outcomes : List (Container × Except Err String)
  trace : Trace
  deriving DecidableEq

/-- The end of a goroutine (lines 65-71): on an error the errgroup keeps the
first error it is given; on success the pair is stored in the registry under
the lock. -/
def Batch.settle (b : Batch) (container : Container) (res : Except Err String) : Batch :=
  match res with
  | .error err =>
    { b with
      err := (match b.err with
        | some first => some first
        | none => some err)
      outcomes := b.outcomes ++ [(container, res)] }
  | .ok id =>
    { b with
      containers := b.containers.set id container
      outcomes := b.outcomes ++ [(container, res)] }

/-- One scheduling step: goroutine `i` issues its next request, or, when its
launcher has returned, finishes.  A goroutine that is done, or an index out
of range, changes nothing. -/
def stepTask (E : Engine) (i : Nat) (ts : List Task) (b : Batch) : List Task × Batch :=
  match ts[i]? with
  | some (.running ct (.call r k)) =>
    (ts.set i (.running ct (k (E b.trace r))), { b with trace := b.trace ++ [r] })
  | some (.running ct (.ret res)) => (ts.set i .done, b.settle ct res)
  | _ => (ts, b)

/-- The goroutines that are still running are run to their end, one after the
other (`runEG.Wait()` returns only when all have returned). -/
def drain (E : Engine) : List Task → Batch → Batch
  | [], b => b
  | .done :: ts, b => drain E ts b
  | .running ct p :: ts, b =>
    drain E ts (({ b with trace := (p.run E b.trace).2 }).settle ct (p.run E b.trace).1)

/-- The execution of a batch under a schedule: the schedule names the goroutine
that moves next, step by step; when the schedule is used up the remaining
goroutines are drained.  Every interleaving of the goroutines is the
execution under some schedule. -/
def runBatch (E : Engine) : List Nat → List Task → Batch → Batch
  | [], ts, b => drain E ts b
  | i :: sched, ts, b => runBatch E sched (stepTask E i ts b).1 (stepTask E i ts b).2

/-- The state of the launch loop of `upServices`: the registry `containers`,
the names `services`, the trace, and the outcomes of all goroutines so far. -/
structure UpState where
  containers : Registry
  services : List String
  outcomes : List (Container × Except Err String)
  trace : Trace
  deriving DecidableEq

/-- The batch of one service (lines 59-74): one goroutine per container, run
under the schedule `sched` up to `runEG.Wait()`. -/
def launchBatch (d : Decls) (c : Composer) (E : Engine) (recreate : String) (sched : List Nat)
    (ps : Service) (st : UpState) : Batch :=
  runBatch E sched
    (ps.Containers.map fun container =>
      Task.running container (upServiceContainer d c ps container recreate))
    { containers := st.containers, err := none, outcomes := [], trace := st.trace }

/-- The launch loop of `upServices` (lines 57-77); `scheds` gives the schedule
of each batch in turn (an absent schedule is the empty one). -/
def launchLoop (d : Decls) (c : Composer) (E : Engine) (recreate : String) :
    List (List Nat) → List Service → UpState → Option Err × UpState
  | _, [], st => (none, st)
  | scheds, ps :: rest, st =>
    let b := launchBatch d c E recreate (scheds.headD []) ps st
    let st' : UpState :=
      { containers := b.containers
        services := st.services ++ [ps.Unparsed.Name]
        outcomes := st.outcomes ++ b.outcomes
        trace := b.trace }
    match b.err with
    | some err => (some err, st')
    | none => launchLoop d c E recreate scheds.tail rest st'

/-- The end of `upServices` (lines 83-102) when not detached: the deferred stop
is registered when `AbortOnContainerExit` is set, the logs are attached, and
after a clean return the containers are stopped. -/
def attachLogs (uo : UpOptions) (latestRun : Bool) (containers : Registry)
    (services : List String) : Prog (Option Err) :=
  let lo : LogsOptions :=
    { AbortOnContainerExit := uo.AbortOnContainerExit
      Follow := true
      NoColor := uo.NoColor
      NoLogPrefix := uo.NoLogPrefix
      LatestRun := latestRun }
  let body : Prog (Option Err) :=
    .call (.logs lo services) fun r =>
      match r with
      | some err => .ret (some err)
      | none => .call (.stopContainers containers) fun _ => .ret none
  if uo.AbortOnContainerExit then
    -- defer c.stopContainersFromParsedServices(ctx, containers)
    body.bind fun res => .call (.stopContainers containers) fun _ => .ret res
  else body

/-- Source `upServices`, under the schedules `scheds` of its batches. -/
def upServices (d : Decls) (c : Composer) (E : Engine) (scheds : List (List Nat))
    (parsedServices : List Service) (uo : UpOptions) (tr : Trace) : Option Err × Trace :=
  if parsedServices.length == 0 then (some (.new "no service was provided"), tr)
  else
    match (ensureLoop c uo parsedServices).run E tr with
    | (some err, tr1) => (some err, tr1)
    | (none, tr1) =>
      let recreate := d.recreateStrategy uo
      match launchLoop d c E recreate scheds parsedServices
          { containers := [], services := [], outcomes := [], trace := tr1 } with
      | (some err, st) => (some err, st.trace)
      | (none, st) =>
        if uo.Detach then (none, st.trace)
        else (attachLogs uo (recreate == d.RecreateNever) st.containers st.services).run E
          st.trace

/-! ## Classes of requests -/

/-- The image operations of the provisioning phase. -/
def Request.isImageOp : Request → Bool
  | .imageExists _ => true
  | .buildServiceImage _ _ _ _ => true
  | .ensureImage _ _ _ _ _ => true
  | _ => false

/-- The image operations `ensureServiceImage` issues for the service `ps`. -/
def Request.provisions (ps : Service) : Request → Bool
  | .imageExists image => image == ps.Image
  | .buildServiceImage image _ _ _ => image == ps.Image
  | .ensureImage image _ _ ps' _ => image == ps.Image && ps' == ps
  | _ => false

/-- The requests the launcher can issue for the container `ct` of the service
`ps`: the existence query for `ct`, a `start`, the forced removal of `ct`,
the `run` command assembled for `ct`, the creation of a directory of `ct`,
the scratch directory with its identifier-output file. -/
def Request.LaunchOf (d : Decls) (c : Composer) (ps : Service) (ct : Container) :
    Request → Prop
  | .containerID name service => name = ct.Name ∧ service = ps.Unparsed.Name
  | .cmdRun args _ _ _ =>
    (∃ e, args = ["start", e]) ∨ args = ["rm", "-f", ct.Name]
      ∨ ∃ tempDir, args = createArgs d c ps
          (if (!ps.Unparsed.StdinOpen && !ps.Unparsed.Tty) = true
            then "-d" :: ct.RunArgs else ct.RunArgs)
          (filepathJoin tempDir "cid")
  | .mkdirAll path perm => path ∈ ct.Mkdir ∧ perm = 0o755
  | .mkdirTemp pattern => pattern = "compose-"
  | .removeAll _ => True
  | .readFile path => ∃ tempDir, path = filepathJoin tempDir "cid"
  | _ => False

/-- `p.RunsTo E final hs q`: the program `p` becomes `q` by issuing one request
for every entry of `hs`; the entry `t` is the trace at the moment of the
request `r`, so that `t ++ [r]` is an initial part of the trace `final`, and
the program goes on with the answer `E t r` of the engine. -/
def Prog.RunsTo {α : Type} (E : Engine) (final : Trace) :
    Prog α → List Trace → Prog α → Prop
  | p, [], q => p = q
  | .call r k, t :: hs, q => (t ++ [r]) <+: final ∧ Prog.RunsTo E final (k (E t r)) hs q
  | .ret _, _ :: _, _ => False

/-- The goroutines that are running have run against the engine up to their
present state, and every outcome is the result of a launcher that ran to its
end; all their requests lie in the trace after its first `n` entries. -/
def Genuine (E : Engine) (f : Container → Prog (Except Err String)) (n : Nat)
    (ts : List Task) (b : Batch) : Prop :=
  n ≤ b.trace.length
  ∧ (∀ ct p, Task.running ct p ∈ ts →
      ∃ hs : List Trace, (f ct).RunsTo E b.trace hs p ∧ ∀ t ∈ hs, n ≤ t.length)
  ∧ (∀ ct res, (ct, res) ∈ b.outcomes →
      ∃ hs : List Trace, (f ct).RunsTo E b.trace hs (.ret res) ∧ ∀ t ∈ hs, n ≤ t.length)

/-- The `EnsureImage` call. -/
def Request.isEnsureImage : Request → Bool
  | .ensureImage _ _ _ _ _ => true
  | _ => false

/-- The requests a container launch can issue. -/
def Request.isLaunchOp : Request → Bool
  | .containerID _ _ => true
  | .cmdRun _ _ _ _ => true
  | .mkdirAll _ _ => true
  | .mkdirTemp _ => true
  | .removeAll _ => true
  | .readFile _ => true
  | _ => false

/-- The log-attach collaborator. -/
def Request.isLogs : Request → Bool
  | .logs _ _ => true
  | _ => false

/-- The stop collaborator. -/
def Request.isStop : Request → Bool
  | .stopContainers _ => true
  | _ => false

/-- Every request the program can issue, whatever the answers, satisfies `P`. -/
def Prog.Emits {α : Type} (P : Request → Prop) : Prog α → Prop
  | .ret _ => True
  | .call r k => P r ∧ ∀ x, (k x).Emits P

/-! ## Bookkeeping used in the statements -/

/-- The (identifier, container) pairs of the launches that succeeded. -/
def successes : List (Container × Except Err String) → List (String × Container)
  | [] => []
  | (ct, .ok id) :: rest => (id, ct) :: successes rest
  | (_, .error _) :: rest => successes rest

/-- The errors of the launches that failed, in the order of their return. -/
def failures : List (Container × Except Err String) → List Err
  | [] => []
  | (_, .ok _) :: rest => failures rest
  | (_, .error err) :: rest => err :: failures rest

/-- The containers of the goroutines that have not returned yet. -/
def pending : List Task → List Container
  | [] => []
  | .running ct _ :: ts => ct :: pending ts
  | .done :: ts => pending ts

/-- Every goroutine that is still running can only emit requests satisfying `P`. -/
def tasksEmit (P : Request → Prop) (ts : List Task) : Prop :=
  ∀ ct p, Task.running ct p ∈ ts → p.Emits P

/-- The argument order the specification gives for the `run` command:
identifier-output-file flag, environment-file flag, project label, service
label, then the detach flag and the original arguments. -/
def specCreateArgs (d : Decls) (c : Composer) (service : Service) (container : Container)
    (cidFilename : String) : List String :=
  ["--cidfile=" ++ cidFilename]
    ++ (if c.EnvFile != "" then ["--env-file=" ++ c.EnvFile] else [])
    ++ ["-l=" ++ d.ComposeProject ++ "=" ++ c.projectName,
        "-l=" ++ d.ComposeService ++ "=" ++ service.Unparsed.Name]
    ++ (if !service.Unparsed.StdinOpen && !service.Unparsed.Tty then ["-d"] else [])
    ++ container.RunArgs

/-! ## Concrete inputs used by the examples -/

/-- The declarations with the values of the repository. -/
def exDecls : Decls :=
  { RecreateNever := "never"
    recreateStrategy := fun _ => "never"
    ComposeProject := "com.docker.compose.project"
    ComposeService := "com.docker.compose.service" }

/-- A composer with a project-wide environment file. -/
def exComposer : Composer := { EnvFile := ".env", projectName := "proj", DebugPrintFull := false }

/-- A container `web-1` with one directory to create. -/
def exWeb1 : Container := { Name := "web-1", RunArgs := ["nginx"], Mkdir := ["/data"] }

/-- A service `web` without terminal, with a build section. -/
def exWeb : Service :=
  { Image := "nginx", PullMode := "missing", Containers := [exWeb1],
    Build := some { Force := false, BuildArgs := ["."] },
    Unparsed := { Name := "web", Platform := "", StdinOpen := false, Tty := false } }

/-- A service with `StdinOpen` set and `Tty` unset. -/
def exStdin : Service :=
  { Image := "nginx", PullMode := "missing", Containers := [exWeb1], Build := none,
    Unparsed := { Name := "web", Platform := "", StdinOpen := true, Tty := false } }

/-- An engine in which every command succeeds: the existence query for the
container `name` answers `cid name`, the image check answers `img`, the log
attach answers `lg`; the scratch directories are `/tmp/compose-1`,
`/tmp/compose-2`, ... in the order of their creation, and the
identifier-output file of the first holds `c2`, of the second `c3`, of a later
one `c4`, each followed by a newline. -/
def exEngine (cid : String → Except Err String) (img : Except Err Bool) (lg : Option Err) :
    Engine :=
  fun tr r =>
    match r with
    | .imageExists _ => img
    | .buildServiceImage _ _ _ _ => none
    | .ensureImage _ _ _ _ _ => none
    | .containerID name _ => cid name
    | .cmdRun _ _ _ _ => none
    | .mkdirAll _ _ => none
    | .mkdirTemp _ =>
      if (tr.filter fun q => q == Request.mkdirTemp "compose-").length == 0 then
        Except.ok "/tmp/compose-1"
      else if (tr.filter fun q => q == Request.mkdirTemp "compose-").length == 1 then
        Except.ok "/tmp/compose-2"
      else Except.ok "/tmp/compose-3"
    | .removeAll _ => ()
    | .readFile path =>
      if path == "/tmp/compose-1/cid" then Except.ok "c2\n"
      else if path == "/tmp/compose-2/cid" then Except.ok "c3\n"
      else Except.ok "c4\n"
    | .logs _ _ => lg
    | .stopContainers _ => ()

/-- A container `web-2` of the same shape. -/
def exWeb2 : Container := { Name := "web-2", RunArgs := ["nginx"], Mkdir := [] }

/-- The service `web` with its two containers. -/
def exWebTwo : Service := { exWeb with Containers := [exWeb1, exWeb2] }

/-- Options of an attached `up` with `--abort-on-container-exit` and `--no-build`. -/
def exAttached : UpOptions :=
  { AbortOnContainerExit := true, Detach := false, NoBuild := true, NoColor := false,
    NoLogPrefix := false, ForceBuild := false, QuietPull := false, Pull := "" }

/-- Options of a detached `up` with `--no-build`. -/
def exDetached : UpOptions := { exAttached with Detach := true }

/-- An existence query that finds `c1` for `web-1` and nothing for other names. -/
def exFindWeb1 (name : String) : Except Err String :=
  if name == "web-1" then Except.ok "c1" else Except.ok ""

/-- An existence query that finds `c1` for `web-1`, fails for `web-2` and finds
nothing for other names. -/
def exFailWeb2 (name : String) : Except Err String :=
  if name == "web-1" then Except.ok "c1"
  else if name == "web-2" then Except.error (.new "engine down")
  else Except.ok ""

/-- A container `db-1`. -/
def exDb1 : Container := { Name := "db-1", RunArgs := ["postgres"], Mkdir := [] }

/-- A service `db` without build section. -/
def exDb : Service :=
  { Image := "postgres", PullMode := "missing", Containers := [exDb1], Build := none,
    Unparsed := { Name := "db", Platform := "", StdinOpen := false, Tty := false } }

/-- A container `cache-1`. -/
def exCache1 : Container := { Name := "cache-1", RunArgs := ["redis"], Mkdir := [] }

/-- A service `cache` without build section. -/
def exCache : Service :=
  { Image := "redis", PullMode := "missing", Containers := [exCache1], Build := none,
    Unparsed := { Name := "cache", Platform := "", StdinOpen := false, Tty := false } }

/-- Options of an attached `up` that may build. -/
def exBuilding : UpOptions := { exAttached with NoBuild := false }

/-- The state at the start of the launch loop, after provisioning `web`. -/
def exProvisioned : UpState :=
  { containers := [], services := [], outcomes := [],
    trace := [.ensureImage "nginx" "missing" "" exWebTwo false] }

/-- The state after launching the two containers of `web`, of which `web-1`
exists, with the never-recreate policy under the schedule `1, 0, 0, 1`. -/
def exLaunched : UpState :=
  (launchLoop exDecls exComposer (exEngine exFindWeb1 (Except.ok true) none) "never"
    [[1, 0, 0, 1]] [exWebTwo] exProvisioned).2

/-- The trace after provisioning `db`, `web` and `cache` without building. -/
def exProvisioned3 : Trace :=
  [.ensureImage "postgres" "missing" "" exDb false,
   .ensureImage "nginx" "missing" "" exWebTwo false,
   .ensureImage "redis" "missing" "" exCache false]

/-- The state after the batch of `db` that follows: `db-1` did not exist and
was created with the identifier `c2`. -/
def exAfterDb : UpState :=
  { containers := [("c2", exDb1)]
    services := ["db"]
    outcomes := [(exDb1, Except.ok "c2")]
    trace :=
      [.ensureImage "postgres" "missing" "" exDb false,
       .ensureImage "nginx" "missing" "" exWebTwo false,
       .ensureImage "redis" "missing" "" exCache false,
       .containerID "db-1" "db",
       .mkdirTemp "compose-",
       .cmdRun ["run", "--cidfile=/tmp/compose-1/cid", "-l=com.docker.compose.project=proj",
         "-l=com.docker.compose.service=db", "--env-file=.env", "-d", "postgres"]
         false false true,
       .readFile "/tmp/compose-1/cid",
       .removeAll "/tmp/compose-1"] }

/-- The batch of `web` after that of `db`, when the existence query fails for
`web-2`, under the schedule `1, 0, 1`: `web-2` fails first, its sibling
`web-1` is started all the same and registered as `c1`. -/
def exFailedBatch : Batch :=
  { containers := [("c1", exWeb1), ("c2", exDb1)]
    err := some (.errorf "error while checking for containers with name %q: %w" "web-2"
      (.new "engine down"))
    outcomes :=
      [(exWeb2, Except.error (.errorf "error while checking for containers with name %q: %w"
          "web-2" (.new "engine down"))),
       (exWeb1, Except.ok "c1")]
    trace :=
      [.ensureImage "postgres" "missing" "" exDb false,
       .ensureImage "nginx" "missing" "" exWebTwo false,
       .ensureImage "redis" "missing" "" exCache false,
       .containerID "db-1" "db",
       .mkdirTemp "compose-",
       .cmdRun ["run", "--cidfile=/tmp/compose-1/cid", "-l=com.docker.compose.project=proj",
         "-l=com.docker.compose.service=db", "--env-file=.env", "-d", "postgres"]
         false false true,
       .readFile "/tmp/compose-1/cid",
       .removeAll "/tmp/compose-1",
       .containerID "web-2" "web",
       .containerID "web-1" "web",
       .cmdRun ["start", "c1"] false false true] }

/-- The state after launching `db` and `web` under the schedules `0` and
`1, 0, 0, 1`: `db-1` is created as `c2`, `web-1` exists and is started as
`c1`, `web-2` is created as `c3`. -/
def exUp : UpState :=
  { containers := [("c3", exWeb2), ("c1", exWeb1), ("c2", exDb1)]
    services := ["db", "web"]
    outcomes := [(exDb1, Except.ok "c2"), (exWeb1, Except.ok "c1"), (exWeb2, Except.ok "c3")]
    trace :=
      [.ensureImage "postgres" "missing" "" exDb false,
       .ensureImage "nginx" "missing" "" exWebTwo false,
       .containerID "db-1" "db",
       .mkdirTemp "compose-",
       .cmdRun ["run", "--cidfile=/tmp/compose-1/cid", "-l=com.docker.compose.project=proj",
         "-l=com.docker.compose.service=db", "--env-file=.env", "-d", "postgres"]
         false false true,
       .readFile "/tmp/compose-1/cid",
       .removeAll "/tmp/compose-1",
       .containerID "web-2" "web",
       .containerID "web-1" "web",
       .cmdRun ["start", "c1"] false false true,
       .mkdirTemp "compose-",
       .cmdRun ["run", "--cidfile=/tmp/compose-2/cid", "-l=com.docker.compose.project=proj",
         "-l=com.docker.compose.service=web", "--env-file=.env", "-d", "nginx"]
         false false true,
       .readFile "/tmp/compose-2/cid",
       .removeAll "/tmp/compose-2"] }

/-! ## Running programs: basic facts -/

@[simp] theorem Prog.run_ret {α : Type} (E : Engine) (a : α) (tr : Trace) :
    (Prog.ret a).run E tr = (a, tr) := rfl

@[simp] theorem Prog.run_call {α : Type} (E : Engine) (r : Request) (k : r.Resp → Prog α)
    (tr : Trace) : (Prog.call r k).run E tr = (k (E tr r)).run E (tr ++ [r]) := rfl

theorem Prog.run_bind {α β : Type} (E : Engine) (p : Prog α) (f : α → Prog β) (tr : Trace) :
    (p.bind f).run E tr = (f (p.run E tr).1).run E (p.run E tr).2 := by
  induction p generalizing tr with
  | ret a => rfl
  | call r k ih => simp [Prog.bind, ih]

theorem mkdirLoop_run_ok (E : Engine) (fs : List String) (tr : Trace)
    (h : ∀ (k : Nat) (hk : k < fs.length),
      E (tr ++ mkdirReqs (fs.take k)) (.mkdirAll (fs.get ⟨k, hk⟩) 0o755) = none) :
    (mkdirLoop fs).run E tr = (none, tr ++ mkdirReqs fs) := by
  induction fs generalizing tr with
  | nil => simp [mkdirLoop, mkdirReqs]
  | cons f fs ih =>
    have h0 := h 0 (by simp)
    simp [mkdirReqs] at h0
    have hrest : ∀ (k : Nat) (hk : k < fs.length),
        E ((tr ++ [.mkdirAll f 0o755]) ++ mkdirReqs (fs.take k))
          (.mkdirAll (fs.get ⟨k, hk⟩) 0o755) = none := by
      intro k hk
      have := h (k + 1) (by simpa using hk)
      simpa [mkdirReqs] using this
    simp [mkdirLoop, h0, ih _ hrest, mkdirReqs]

/-- C1. Reuse branch: with equal terminal flags, an existence query that answers a
non-empty identifier `e`, the policy `RecreateNever` and a successful start
command, the launcher issues the query and then the single command `start e`
(no `rm`, no `run`, no directory, no scratch directory) and returns `e`. -/
theorem upServiceContainer_reuse (d : Decls) (c : Composer) (E : Engine) (service : Service)
    (container : Container) (e : String) (tr : Trace)
    (htty : service.Unparsed.StdinOpen = service.Unparsed.Tty)
    (hq : E tr (.containerID container.Name service.Unparsed.Name) = Except.ok e)
    (he : e ≠ "")
    (hstart : E (tr ++ [.containerID container.Name service.Unparsed.Name])
      (.cmdRun ["start", e] service.Unparsed.StdinOpen
        (!(!service.Unparsed.StdinOpen && !service.Unparsed.Tty)) true) = none) :
    (upServiceContainer d c service container d.RecreateNever).run E tr =
      (Except.ok e, tr ++ [.containerID container.Name service.Unparsed.Name,
        .cmdRun ["start", e] service.Unparsed.StdinOpen
          (!(!service.Unparsed.StdinOpen && !service.Unparsed.Tty)) true]) := by
  simp [upServiceContainer, executeUpCmd, Prog.run_bind, Prog.bind, hq, htty, he] at hstart ⊢
  simp [hstart]


/-- C2. Recreate branch: with equal terminal flags, an existence query that answers
a non-empty identifier, a policy other than `RecreateNever` and every step
succeeding, the launcher issues the query, one `rm -f <name>`, the directory
creations, the scratch directory, one `run` command, the read of the
identifier-output file and the removal of the scratch directory, in this
order and nothing else (so no `start`); it returns the trimmed content of the
identifier-output file. -/
theorem upServiceContainer_recreate (d : Decls) (c : Composer) (E : Engine) (service : Service)
    (container : Container) (recreate e tempDir content : String) (tr : Trace)
    (htty : service.Unparsed.StdinOpen = service.Unparsed.Tty)
    (hq : E tr (.containerID container.Name service.Unparsed.Name) = Except.ok e)
    (he : e ≠ "")
    (hpol : recreate ≠ d.RecreateNever)
    (hrm : E (tr ++ [.containerID container.Name service.Unparsed.Name])
      (.cmdRun ["rm", "-f", container.Name] false false false) = none)
    (hmk : ∀ (k : Nat) (hk : k < container.Mkdir.length),
      E (tr ++ [.containerID container.Name service.Unparsed.Name,
                .cmdRun ["rm", "-f", container.Name] false false false]
            ++ mkdirReqs (container.Mkdir.take k))
        (.mkdirAll (container.Mkdir.get ⟨k, hk⟩) 0o755) = none)
    (htmp : E (tr ++ [.containerID container.Name service.Unparsed.Name,
                .cmdRun ["rm", "-f", container.Name] false false false]
            ++ mkdirReqs container.Mkdir) (.mkdirTemp "compose-") = Except.ok tempDir)
    (hrun : E (tr ++ [.containerID container.Name service.Unparsed.Name,
                .cmdRun ["rm", "-f", container.Name] false false false]
            ++ mkdirReqs container.Mkdir ++ [.mkdirTemp "compose-"])
        (.cmdRun (createArgs d c service
            (if (!service.Unparsed.StdinOpen && !service.Unparsed.Tty) = true
              then "-d" :: container.RunArgs else container.RunArgs)
            (filepathJoin tempDir "cid"))
          service.Unparsed.StdinOpen (!(!service.Unparsed.StdinOpen && !service.Unparsed.Tty))
          true) = none)
    (hread : E (tr ++ [.containerID container.Name service.Unparsed.Name,
                .cmdRun ["rm", "-f", container.Name] false false false]
            ++ mkdirReqs container.Mkdir ++ [.mkdirTemp "compose-",
              .cmdRun (createArgs d c service
                (if (!service.Unparsed.StdinOpen && !service.Unparsed.Tty) = true
                  then "-d" :: container.RunArgs else container.RunArgs)
                (filepathJoin tempDir "cid"))
              service.Unparsed.StdinOpen
              (!(!service.Unparsed.StdinOpen && !service.Unparsed.Tty)) true])
        (.readFile (filepathJoin tempDir "cid")) = Except.ok content) :
    (upServiceContainer d c service container recreate).run E tr =
      (Except.ok (trimSpace content),
        tr ++ [.containerID container.Name service.Unparsed.Name,
               .cmdRun ["rm", "-f", container.Name] false false false]
          ++ mkdirReqs container.Mkdir
          ++ [.mkdirTemp "compose-",
              .cmdRun (createArgs d c service
                (if (!service.Unparsed.StdinOpen && !service.Unparsed.Tty) = true
                  then "-d" :: container.RunArgs else container.RunArgs)
                (filepathJoin tempDir "cid"))
              service.Unparsed.StdinOpen
              (!(!service.Unparsed.StdinOpen && !service.Unparsed.Tty)) true,
              .readFile (filepathJoin tempDir "cid"),
              .removeAll tempDir]) := by
  have hmk' := mkdirLoop_run_ok E container.Mkdir
    (tr ++ [.containerID container.Name service.Unparsed.Name,
            .cmdRun ["rm", "-f", container.Name] false false false]) hmk
  simp only [List.append_assoc, List.cons_append, List.nil_append] at hmk' htmp hrun hread hrm
  simp [upServiceContainer, executeUpCmd, Prog.run_bind, Prog.bind, hq, htty, he, hpol, hrm,
    hmk', htmp] at hrun hread ⊢
  simp [hrun, hread]

/-! ## What a program can emit -/

theorem Prog.Emits.mono {α : Type} {P Q : Request → Prop} (h : ∀ r, P r → Q r) (p : Prog α)
    (hp : p.Emits P) : p.Emits Q := by
  induction p with
  | ret a => trivial
  | call r k ih => exact ⟨h r hp.1, fun x => ih x (hp.2 x)⟩

theorem Prog.Emits.bind {α β : Type} {P : Request → Prop} (p : Prog α) (f : α → Prog β)
    (hp : p.Emits P) (hf : ∀ a, (f a).Emits P) : (p.bind f).Emits P := by
  induction p with
  | ret a => exact hf a
  | call r k ih => exact ⟨hp.1, fun x => ih x (hp.2 x)⟩

theorem Prog.run_emits {α : Type} {P : Request → Prop} (E : Engine) (p : Prog α)
    (hp : p.Emits P) (tr : Trace) :
    ∃ new : List Request, (p.run E tr).2 = tr ++ new ∧ ∀ r ∈ new, P r := by
  induction p generalizing tr with
  | ret a => exact ⟨[], by simp⟩
  | call r k ih =>
    obtain ⟨new, h1, h2⟩ := ih (E tr r) (hp.2 (E tr r)) (tr ++ [r])
    refine ⟨r :: new, by simp [h1], ?_⟩
    intro x hx
    rcases List.mem_cons.1 hx with rfl | hx
    · exact hp.1
    · exact h2 x hx

theorem Prog.run_drop {α : Type} {P : Request → Prop} (E : Engine) (p : Prog α)
    (hp : p.Emits P) (tr : Trace) : ∀ r ∈ ((p.run E tr).2).drop tr.length, P r := by
  obtain ⟨new, h1, h2⟩ := Prog.run_emits E p hp tr
  simpa [h1] using h2

theorem mkdirLoop_emits {P : Request → Prop} (fs : List String)
    (h : ∀ f ∈ fs, P (.mkdirAll f 0o755)) : (mkdirLoop fs).Emits P := by
  induction fs with
  | nil => trivial
  | cons f fs ih =>
    refine ⟨h f (List.mem_cons_self _ _), fun x => ?_⟩
    cases x with
    | none => exact ih fun g hg => h g (List.mem_cons_of_mem _ hg)
    | some err => trivial

theorem executeUpCmd_emits {P : Request → Prop} (c : Composer) (cmd : List String)
    (name : String) (runFlagD stdinOpen : Bool) (h : P (.cmdRun cmd stdinOpen (!runFlagD) true)) :
    (executeUpCmd c cmd name runFlagD stdinOpen).Emits P := by
  refine ⟨h, fun x => ?_⟩
  cases x <;> trivial

/-- The launcher emits only requests satisfying `P` as soon as the requests it
can build do. -/
theorem upServiceContainer_emits {P : Request → Prop} (d : Decls) (c : Composer)
    (service : Service) (container : Container) (recreate : String)
    (hq : P (.containerID container.Name service.Unparsed.Name))
    (hstart : ∀ e, P (.cmdRun ["start", e] service.Unparsed.StdinOpen
      (!(!service.Unparsed.StdinOpen && !service.Unparsed.Tty)) true))
    (hrm : P (.cmdRun ["rm", "-f", container.Name] false false false))
    (hmk : ∀ f ∈ container.Mkdir, P (.mkdirAll f 0o755))
    (htmp : P (.mkdirTemp "compose-"))
    (hrun : ∀ tempDir, P (.cmdRun (createArgs d c service
        (if (!service.Unparsed.StdinOpen && !service.Unparsed.Tty) = true
          then "-d" :: container.RunArgs else container.RunArgs)
        (filepathJoin tempDir "cid"))
      service.Unparsed.StdinOpen (!(!service.Unparsed.StdinOpen && !service.Unparsed.Tty)) true))
    (hread : ∀ tempDir, P (.readFile (filepathJoin tempDir "cid")))
    (hrmall : ∀ tempDir, P (.removeAll tempDir)) :
    (upServiceContainer d c service container recreate).Emits P := by
  refine ⟨hq, fun x => ?_⟩
  cases x with
  | error err => trivial
  | ok existingCid =>
    dsimp only
    split
    · trivial
    · split
      · refine Prog.Emits.bind _ _ (executeUpCmd_emits _ _ _ _ _ (hstart _)) fun a => ?_
        cases a <;> trivial
      · refine Prog.Emits.bind _ _ ?_ fun a => ?_
        · split
          · refine ⟨hrm, fun x => ?_⟩
            cases x <;> trivial
          · trivial
        · cases a with
          | some err => trivial
          | none =>
            refine Prog.Emits.bind _ _ (mkdirLoop_emits _ hmk) fun a => ?_
            cases a with
            | some err => trivial
            | none =>
              refine ⟨htmp, fun x => ?_⟩
              cases x with
              | error err => trivial
              | ok tempDir =>
                refine Prog.Emits.bind _ _ ?_ fun res => ⟨hrmall _, fun _ => trivial⟩
                refine Prog.Emits.bind _ _ (executeUpCmd_emits _ _ _ _ _ (hrun _)) fun a => ?_
                cases a with
                | some err => trivial
                | none =>
                  refine ⟨hread _, fun x => ?_⟩
                  cases x <;> trivial

/-! ## The container launcher -/

/-- Example for C1: an existing container `c1` is started and `c1` is returned. -/
theorem upServiceContainer_reuse_witness :
    (upServiceContainer exDecls exComposer exWeb exWeb1 "never").run
        (exEngine (fun _ => Except.ok "c1") (Except.ok true) none) [] =
      (Except.ok "c1",
        [.containerID "web-1" "web", .cmdRun ["start", "c1"] false false true]) :=
  upServiceContainer_reuse exDecls exComposer (exEngine (fun _ => Except.ok "c1") (Except.ok true) none)
    exWeb exWeb1 "c1" [] rfl rfl (by decide) rfl

/-- Example for C2: the existing container `c1` is removed, a new one is created
and the identifier `c2` read from the identifier-output file is returned. -/
theorem upServiceContainer_recreate_witness :
    (upServiceContainer exDecls exComposer exWeb exWeb1 "force").run
        (exEngine (fun _ => Except.ok "c1") (Except.ok true) none) [] =
      (Except.ok "c2",
        [.containerID "web-1" "web",
         .cmdRun ["rm", "-f", "web-1"] false false false,
         .mkdirAll "/data" 0o755,
         .mkdirTemp "compose-",
         .cmdRun ["run", "--cidfile=/tmp/compose-1/cid", "-l=com.docker.compose.project=proj",
           "-l=com.docker.compose.service=web", "--env-file=.env", "-d", "nginx"]
           false false true,
         .readFile "/tmp/compose-1/cid",
         .removeAll "/tmp/compose-1"]) :=
  upServiceContainer_recreate exDecls exComposer
    (exEngine (fun _ => Except.ok "c1") (Except.ok true) none) exWeb exWeb1 "force" "c1"
    "/tmp/compose-1" "c2\n" [] rfl rfl (by decide) (by decide) rfl (fun _ _ => rfl) rfl rfl rfl

/-- C7, as stated, fails: with `StdinOpen != Tty` and a failing existence query the
launch fails with the wrapped query error, not with the configuration error. -/
theorem upServiceContainer_tty_counterexample :
    ((upServiceContainer exDecls exComposer exStdin exWeb1 "never").run
        (exEngine (fun _ => Except.error (.new "engine down")) (Except.ok true) none) []).1
      ≠ Except.error (.new "currently StdinOpen(-i) and Tty(-t) should be same") := by
  decide

/-- C7, amended. With `StdinOpen != Tty`, for every container, policy and engine,
the launch fails after issuing the existence query and nothing else (no
`start`, `rm` or `run`); the error is the configuration error when the query
succeeds (whether it finds a container or not) and the wrapped query error
when the query fails. -/
theorem upServiceContainer_tty_mismatch (d : Decls) (c : Composer) (E : Engine)
    (service : Service) (container : Container) (recreate : String) (tr : Trace)
    (htty : service.Unparsed.StdinOpen ≠ service.Unparsed.Tty) :
    (upServiceContainer d c service container recreate).run E tr =
      (Except.error
        (match E tr (.containerID container.Name service.Unparsed.Name) with
         | Except.ok _ => Err.new "currently StdinOpen(-i) and Tty(-t) should be same"
         | Except.error err =>
           Err.errorf "error while checking for containers with name %q: %w" container.Name err),
       tr ++ [.containerID container.Name service.Unparsed.Name]) := by
  simp only [upServiceContainer, Prog.run_call]
  cases E tr (.containerID container.Name service.Unparsed.Name) with
  | error err => simp
  | ok existingCid => simp [htty]

/-- Example for C7 amended: the query finds `c1`, the launch fails with the
configuration error and only the query was issued. -/
theorem upServiceContainer_tty_mismatch_witness :
    (upServiceContainer exDecls exComposer exStdin exWeb1 "never").run
        (exEngine (fun _ => Except.ok "c1") (Except.ok true) none) [] =
      (Except.error (.new "currently StdinOpen(-i) and Tty(-t) should be same"),
        [.containerID "web-1" "web"]) :=
  upServiceContainer_tty_mismatch exDecls exComposer
    (exEngine (fun _ => Except.ok "c1") (Except.ok true) none) exStdin exWeb1 "never" [] (by decide)

/-- C9, as stated, fails: with a project-wide environment file the `run` command
carries the environment-file flag after the two labels, which is not the
order of the specification. -/
theorem upServiceContainer_run_args_counterexample :
    Request.cmdRun ("run" :: ["--cidfile=/tmp/compose-1/cid",
        "-l=com.docker.compose.project=proj", "-l=com.docker.compose.service=web",
        "--env-file=.env", "-d", "nginx"]) false false true
      ∈ ((upServiceContainer exDecls exComposer exWeb exWeb1 "force").run
          (exEngine (fun _ => Except.ok "") (Except.ok true) none) []).2
    ∧ ["--cidfile=/tmp/compose-1/cid",
        "-l=com.docker.compose.project=proj", "-l=com.docker.compose.service=web",
        "--env-file=.env", "-d", "nginx"]
      ≠ specCreateArgs exDecls exComposer exWeb exWeb1 "/tmp/compose-1/cid" := by
  decide

/-- C9, amended. Every `run` command a launch issues has the arguments, in this
order: the identifier-output-file flag, the project label, the service label,
then the environment-file flag exactly when `EnvFile` is non-empty, then `-d`
exactly when `StdinOpen` and `Tty` are both false, then the original
arguments of the container. -/
theorem upServiceContainer_run_args (d : Decls) (c : Composer) (E : Engine) (service : Service)
    (container : Container) (recreate : String) (tr : Trace) (args : List String)
    (i o e : Bool)
    (h : Request.cmdRun ("run" :: args) i o e ∈
      ((upServiceContainer d c service container recreate).run E tr).2.drop tr.length) :
    ∃ tempDir : String, args =
      ["--cidfile=" ++ filepathJoin tempDir "cid",
       "-l=" ++ d.ComposeProject ++ "=" ++ c.projectName,
       "-l=" ++ d.ComposeService ++ "=" ++ service.Unparsed.Name]
      ++ (if c.EnvFile != "" then ["--env-file=" ++ c.EnvFile] else [])
      ++ (if !service.Unparsed.StdinOpen && !service.Unparsed.Tty then ["-d"] else [])
      ++ container.RunArgs := by
  have key := Prog.run_drop E (upServiceContainer d c service container recreate)
    (P := fun r => ∀ args i o e, r = Request.cmdRun ("run" :: args) i o e →
      ∃ tempDir : String, args =
        ["--cidfile=" ++ filepathJoin tempDir "cid",
         "-l=" ++ d.ComposeProject ++ "=" ++ c.projectName,
         "-l=" ++ d.ComposeService ++ "=" ++ service.Unparsed.Name]
        ++ (if c.EnvFile != "" then ["--env-file=" ++ c.EnvFile] else [])
        ++ (if !service.Unparsed.StdinOpen && !service.Unparsed.Tty then ["-d"] else [])
        ++ container.RunArgs)
    (upServiceContainer_emits d c service container recreate
      (by intro _ _ _ _ h; cases h)
      (by intro _ _ _ _ _ h; simp at h)
      (by intro _ _ _ _ h; simp at h)
      (by intro _ _ _ _ _ _ h; cases h)
      (by intro _ _ _ _ h; cases h)
      (by
        intro tempDir args i o e h
        refine ⟨tempDir, ?_⟩
        simp only [createArgs, Request.cmdRun.injEq, List.cons.injEq, true_and] at h
        rw [← h.1]
        by_cases h1 : c.EnvFile = "" <;>
          by_cases h2 : (!service.Unparsed.StdinOpen && !service.Unparsed.Tty) = true <;>
          simp [h1, h2])
      (by intro _ _ _ _ _ h; cases h)
      (by intro _ _ _ _ _ h; cases h)) tr
  exact key _ h args i o e rfl

/-- Example for C9 amended: the `run` command of a fresh launch. -/
theorem upServiceContainer_run_args_witness :
    ∃ tempDir : String,
      ["--cidfile=/tmp/compose-1/cid", "-l=com.docker.compose.project=proj",
        "-l=com.docker.compose.service=web", "--env-file=.env", "-d", "nginx"] =
      ["--cidfile=" ++ filepathJoin tempDir "cid",
       "-l=" ++ exDecls.ComposeProject ++ "=" ++ exComposer.projectName,
       "-l=" ++ exDecls.ComposeService ++ "=" ++ exWeb.Unparsed.Name]
      ++ (if exComposer.EnvFile != "" then ["--env-file=" ++ exComposer.EnvFile] else [])
      ++ (if !exWeb.Unparsed.StdinOpen && !exWeb.Unparsed.Tty then ["-d"] else [])
      ++ exWeb1.RunArgs :=
  upServiceContainer_run_args exDecls exComposer (exEngine (fun _ => Except.ok "") (Except.ok true) none)
    exWeb exWeb1 "force" [] _ false false true (by decide)

/-! ## The image provisioner -/

/-- C8, as stated, fails: with an unforced build section and an image found
absent, the call builds the image and returns without any `EnsureImage` call. -/
theorem ensureServiceImage_counterexample :
    (ensureServiceImage exComposer exWeb true false { Args := [] } false "").run
        (exEngine (fun _ => Except.ok "") (Except.ok false) none) [] =
      (none, [.imageExists "nginx",
        .buildServiceImage "nginx" { Force := false, BuildArgs := ["."] } "" { Args := [] }])
    ∧ (((ensureServiceImage exComposer exWeb true false { Args := [] } false "").run
        (exEngine (fun _ => Except.ok "") (Except.ok false) none) []).2.filter
          Request.isEnsureImage) = [] := by
  decide

/-- C8, amended. When the build is not forced and the call meets no engine error:
if the service has a build section, building is allowed and the image is
found absent, the call issues the existence check and the build and no
`EnsureImage`; in every other case the call ends with exactly one
`EnsureImage` call as its last engine call (preceded at most by the existence
check), with the override pull mode when that is non-empty and the pull mode
of the service otherwise. -/
theorem ensureServiceImage_trace (c : Composer) (ps : Service) (allowBuild forceBuild : Bool)
    (bo : BuildOptions) (quiet : Bool) (pullModeArg : String) (E : Engine) (tr : Trace)
    (hforce : forceBuild = false)
    (hsvc : ∀ b, ps.Build = some b → b.Force = false)
    (hok : ((ensureServiceImage c ps allowBuild forceBuild bo quiet pullModeArg).run E tr).1
      = none) :
    (∃ b, ps.Build = some b ∧ allowBuild = true
        ∧ E tr (.imageExists ps.Image) = Except.ok false
        ∧ ((ensureServiceImage c ps allowBuild forceBuild bo quiet pullModeArg).run E tr).2
          = tr ++ [.imageExists ps.Image,
                   .buildServiceImage ps.Image b ps.Unparsed.Platform bo])
    ∨ ((¬ ∃ b, ps.Build = some b ∧ allowBuild = true
          ∧ E tr (.imageExists ps.Image) = Except.ok false)
        ∧ (((ensureServiceImage c ps allowBuild forceBuild bo quiet pullModeArg).run E tr).2
            = tr ++ [.ensureImage ps.Image
                (if pullModeArg != "" then pullModeArg else ps.PullMode)
                ps.Unparsed.Platform ps quiet]
          ∨ ((ensureServiceImage c ps allowBuild forceBuild bo quiet pullModeArg).run E tr).2
            = tr ++ [.imageExists ps.Image,
                .ensureImage ps.Image
                  (if pullModeArg != "" then pullModeArg else ps.PullMode)
                  ps.Unparsed.Platform ps quiet])) := by
  subst hforce
  unfold ensureServiceImage at hok ⊢
  cases hb : ps.Build with
  | none =>
    right
    refine ⟨by simp [hb], Or.inl ?_⟩
    by_cases hp : pullModeArg = "" <;> simp [hp]
  | some b =>
    have hbf := hsvc b hb
    cases allowBuild with
    | false =>
      right
      refine ⟨by simp, Or.inl ?_⟩
      by_cases hp : pullModeArg = "" <;> simp [hp]
    | true =>
      simp only [hb, hbf] at hok
      cases hex : E tr (.imageExists ps.Image) with
      | error err => simp [hex] at hok
      | ok found =>
        cases found with
        | false =>
          left
          exact ⟨b, rfl, rfl, rfl, by simp [hbf, hex]⟩
        | true =>
          right
          refine ⟨fun ⟨_, _, _, h⟩ => (by cases h), Or.inr ?_⟩
          by_cases hp : pullModeArg = "" <;> simp [hbf, hex, hp]

/-- Example for C8 amended: a service without build section, provisioned with the
override pull mode `always`. -/
theorem ensureServiceImage_trace_witness :
    (∃ b, exStdin.Build = some b ∧ true = true
        ∧ exEngine (fun _ => Except.ok "") (Except.ok true) none [] (.imageExists exStdin.Image)
          = Except.ok false
        ∧ ((ensureServiceImage exComposer exStdin true false { Args := [] } false "always").run
            (exEngine (fun _ => Except.ok "") (Except.ok true) none) []).2
          = [] ++ [.imageExists exStdin.Image,
                   .buildServiceImage exStdin.Image b exStdin.Unparsed.Platform { Args := [] }])
    ∨ ((¬ ∃ b, exStdin.Build = some b ∧ true = true
          ∧ exEngine (fun _ => Except.ok "") (Except.ok true) none [] (.imageExists exStdin.Image)
            = Except.ok false)
        ∧ (((ensureServiceImage exComposer exStdin true false { Args := [] } false "always").run
              (exEngine (fun _ => Except.ok "") (Except.ok true) none) []).2
            = [] ++ [.ensureImage exStdin.Image
                (if "always" != "" then "always" else exStdin.PullMode)
                exStdin.Unparsed.Platform exStdin false]
          ∨ ((ensureServiceImage exComposer exStdin true false { Args := [] } false "always").run
              (exEngine (fun _ => Except.ok "") (Except.ok true) none) []).2
            = [] ++ [.imageExists exStdin.Image,
                .ensureImage exStdin.Image
                  (if "always" != "" then "always" else exStdin.PullMode)
                  exStdin.Unparsed.Platform exStdin false])) :=
  ensureServiceImage_trace exComposer exStdin true false { Args := [] } false
    "always" (exEngine (fun _ => Except.ok "") (Except.ok true) none) [] rfl (by decide) rfl

/-! ## The goroutines of a batch -/

theorem successes_append (xs ys : List (Container × Except Err String)) :
    successes (xs ++ ys) = successes xs ++ successes ys := by
  induction xs with
  | nil => rfl
  | cons x xs ih =>
    obtain ⟨ct, res⟩ := x
    cases res <;> simp [successes, ih]

theorem failures_append (xs ys : List (Container × Except Err String)) :
    failures (xs ++ ys) = failures xs ++ failures ys := by
  induction xs with
  | nil => rfl
  | cons x xs ih =>
    obtain ⟨ct, res⟩ := x
    cases res <;> simp [failures, ih]

theorem mem_successes {xs : List (Container × Except Err String)} {id : String}
    {ct : Container} : (id, ct) ∈ successes xs ↔ (ct, Except.ok id) ∈ xs := by
  induction xs with
  | nil => simp [successes]
  | cons x xs ih =>
    obtain ⟨ct', res⟩ := x
    cases res with
    | error err => simp [successes, ih]
    | ok id' =>
      simp only [successes, List.mem_cons, ih, Prod.mk.injEq, Except.ok.injEq]
      tauto

theorem mem_failures {xs : List (Container × Except Err String)} {e : Err} :
    e ∈ failures xs ↔ ∃ ct, (ct, Except.error e) ∈ xs := by
  induction xs with
  | nil => simp [failures]
  | cons x xs ih =>
    obtain ⟨ct', res⟩ := x
    cases res with
    | error err =>
      simp only [failures, List.mem_cons, ih, Prod.mk.injEq, Except.error.injEq]
      constructor
      · rintro (rfl | ⟨ct, h⟩)
        · exact ⟨ct', Or.inl ⟨rfl, rfl⟩⟩
        · exact ⟨ct, Or.inr h⟩
      · rintro ⟨ct, ⟨-, rfl⟩ | h⟩
        · exact Or.inl rfl
        · exact Or.inr ⟨ct, h⟩
    | ok id' => simp [failures, ih]

theorem successes_snd_of_no_failure (xs : List (Container × Except Err String))
    (h : failures xs = []) : (successes xs).map Prod.snd = xs.map Prod.fst := by
  induction xs with
  | nil => rfl
  | cons x xs ih =>
    obtain ⟨ct', res⟩ := x
    cases res with
    | error err => simp [failures] at h
    | ok id' => simp [successes, ih (by simpa [failures] using h)]

@[simp] theorem Batch.settle_trace (b : Batch) (ct : Container) (res : Except Err String) :
    (b.settle ct res).trace = b.trace := by
  cases res <;> rfl

@[simp] theorem Batch.settle_outcomes (b : Batch) (ct : Container) (res : Except Err String) :
    (b.settle ct res).outcomes = b.outcomes ++ [(ct, res)] := by
  cases res <;> rfl

/-- A property of the shared state that every goroutine end preserves, and
that does not depend on the trace, holds after every step. -/
theorem stepTask_preserves (E : Engine) (J : Batch → Prop)
    (hs : ∀ b ct res, J b → J (b.settle ct res))
    (ht : ∀ (b : Batch) tr, J b → J { b with trace := tr })
    (i : Nat) (ts : List Task) (b : Batch) (h : J b) : J (stepTask E i ts b).2 := by
  unfold stepTask
  split
  · exact ht _ _ h
  · exact hs _ _ _ h
  · exact h

theorem drain_preserves (E : Engine) (J : Batch → Prop)
    (hs : ∀ b ct res, J b → J (b.settle ct res))
    (ht : ∀ (b : Batch) tr, J b → J { b with trace := tr })
    (ts : List Task) (b : Batch) (h : J b) : J (drain E ts b) := by
  induction ts generalizing b with
  | nil => exact h
  | cons t ts ih =>
    cases t with
    | done => exact ih b h
    | running ct p => exact ih _ (hs _ _ _ (ht _ _ h))

theorem runBatch_preserves (E : Engine) (J : Batch → Prop)
    (hs : ∀ b ct res, J b → J (b.settle ct res))
    (ht : ∀ (b : Batch) tr, J b → J { b with trace := tr })
    (sched : List Nat) (ts : List Task) (b : Batch) (h : J b) : J (runBatch E sched ts b) := by
  induction sched generalizing ts b with
  | nil => exact drain_preserves E J hs ht ts b h
  | cons i sched ih => exact ih _ _ (stepTask_preserves E J hs ht i ts b h)

/-- The errgroup keeps the first error that a goroutine returned. -/
theorem runBatch_err (E : Engine) (sched : List Nat) (ts : List Task) (b : Batch)
    (h : b.err = (failures b.outcomes).head?) :
    (runBatch E sched ts b).err = (failures (runBatch E sched ts b).outcomes).head? := by
  refine runBatch_preserves E (fun b => b.err = (failures b.outcomes).head?) ?_ ?_ sched ts b h
  · intro b ct res hb
    cases res with
    | error err =>
      simp only [Batch.settle, failures_append, failures]
      cases hf : failures b.outcomes with
      | nil => simp [hb, hf]
      | cons e es => simp [hb, hf]
    | ok id => simpa [Batch.settle, failures_append, failures] using hb
  · intro b tr hb
    exact hb

/-- Every identifier returned by a successful launch is a key of the registry. -/
theorem runBatch_keys (E : Engine) (sched : List Nat) (ts : List Task) (b : Batch)
    (prev : List (Container × Except Err String))
    (h : ∀ id ∈ (successes (prev ++ b.outcomes)).map Prod.fst, id ∈ b.containers.keys) :
    ∀ id ∈ (successes (prev ++ (runBatch E sched ts b).outcomes)).map Prod.fst,
      id ∈ (runBatch E sched ts b).containers.keys := by
  refine runBatch_preserves E
    (fun b => ∀ id ∈ (successes (prev ++ b.outcomes)).map Prod.fst, id ∈ b.containers.keys)
    ?_ ?_ sched ts b h
  · intro b ct res hb id hid
    cases res with
    | error err =>
      simp only [Batch.settle_outcomes, ← List.append_assoc, successes_append (prev ++ b.outcomes),
        successes, List.append_nil] at hid
      simpa [Batch.settle] using hb id hid
    | ok id' =>
      simp only [Batch.settle_outcomes, ← List.append_assoc, successes_append (prev ++ b.outcomes),
        successes, List.map_append, List.mem_append, List.map_cons, List.map_nil,
        List.mem_singleton] at hid
      by_cases heq : id = id'
      · simp [Batch.settle, Registry.set, Registry.keys, heq]
      · rcases hid with hid | hid
        · have := hb id hid
          simp only [Registry.keys, List.mem_map] at this ⊢
          obtain ⟨p, hp, rfl⟩ := this
          exact ⟨p, by simp [Batch.settle, Registry.set, hp, heq], rfl⟩
        · exact absurd hid heq
  · intro b tr hb
    exact hb

/-- When the identifiers returned by the successful launches are pairwise
distinct, the registry holds exactly the pairs of the successful launches. -/
theorem runBatch_perm_successes (E : Engine) (sched : List Nat) (ts : List Task) (b : Batch)
    (prev : List (Container × Except Err String))
    (h : ((successes (prev ++ b.outcomes)).map Prod.fst).Nodup →
      b.containers.Perm (successes (prev ++ b.outcomes))) :
    ((successes (prev ++ (runBatch E sched ts b).outcomes)).map Prod.fst).Nodup →
      (runBatch E sched ts b).containers.Perm
        (successes (prev ++ (runBatch E sched ts b).outcomes)) := by
  refine runBatch_preserves E
    (fun b => ((successes (prev ++ b.outcomes)).map Prod.fst).Nodup →
      b.containers.Perm (successes (prev ++ b.outcomes)))
    ?_ ?_ sched ts b h
  · intro b ct res hb hnd
    cases res with
    | error err =>
      simp only [Batch.settle_outcomes, ← List.append_assoc, successes_append (prev ++ b.outcomes),
        successes, List.append_nil] at hnd ⊢
      exact hb hnd
    | ok id' =>
      simp only [Batch.settle_outcomes, ← List.append_assoc, successes_append (prev ++ b.outcomes),
        successes, List.map_append, List.map_cons, List.map_nil] at hnd ⊢
      have hnd' := (List.nodup_append.1 hnd).1
      have hnot : id' ∉ (successes (prev ++ b.outcomes)).map Prod.fst := by
        intro hmem
        exact (List.nodup_append.1 hnd).2.2 hmem (List.mem_singleton.2 rfl)
      have hperm := hb hnd'
      have hfilter : b.containers.filter (fun p => p.1 != id') = b.containers := by
        rw [List.filter_eq_self]
        intro p hp
        have : p.1 ∈ (successes (prev ++ b.outcomes)).map Prod.fst :=
          List.mem_map.2 ⟨p, hperm.subset hp, rfl⟩
        simp only [bne_iff_ne, ne_eq]
        rintro rfl
        exact hnot this
      simp only [Batch.settle, Registry.set, hfilter]
      exact (hperm.cons _).trans (List.perm_append_singleton _ _).symm
  · intro b tr hb
    exact hb

theorem pending_set_running (ts : List Task) (i : Nat) (ct : Container)
    (p q : Prog (Except Err String)) (h : ts[i]? = some (.running ct p)) :
    pending (ts.set i (.running ct q)) = pending ts := by
  induction ts generalizing i with
  | nil => simp at h
  | cons t ts ih =>
    cases i with
    | zero =>
      simp only [List.getElem?_cons_zero, Option.some.injEq] at h
      subst h
      simp [pending]
    | succ i =>
      simp only [List.getElem?_cons_succ] at h
      cases t <;> simp [pending, ih i h]

theorem pending_set_done (ts : List Task) (i : Nat) (ct : Container)
    (p : Prog (Except Err String)) (h : ts[i]? = some (.running ct p)) :
    (ct :: pending (ts.set i .done)).Perm (pending ts) := by
  induction ts generalizing i with
  | nil => simp at h
  | cons t ts ih =>
    cases i with
    | zero =>
      simp only [List.getElem?_cons_zero, Option.some.injEq] at h
      subst h
      simp [pending]
    | succ i =>
      simp only [List.getElem?_cons_succ] at h
      cases t with
      | done => simpa [pending] using ih i h
      | running ct' p' =>
        simp only [List.set_cons_succ, pending]
        exact (List.Perm.swap _ _ _).trans ((ih i h).cons _)

/-- Every goroutine of a batch returns exactly once: a step moves a container
from the running goroutines to the outcomes, or leaves both unchanged. -/
theorem stepTask_outcomes (E : Engine) (i : Nat) (ts : List Task) (b : Batch) :
    ((stepTask E i ts b).2.outcomes.map Prod.fst ++ pending (stepTask E i ts b).1).Perm
      (b.outcomes.map Prod.fst ++ pending ts) := by
  unfold stepTask
  split
  · rename_i ct r k heq
    simp [pending_set_running ts i ct _ _ heq]
  · rename_i ct res heq
    simp only [Batch.settle_outcomes, List.map_append, List.map_cons, List.map_nil,
      List.append_assoc, List.singleton_append]
    exact List.Perm.append_left _ (pending_set_done ts i ct _ heq)
  · exact List.Perm.refl _

theorem drain_outcomes (E : Engine) (ts : List Task) (b : Batch) :
    ((drain E ts b).outcomes.map Prod.fst).Perm (b.outcomes.map Prod.fst ++ pending ts) := by
  induction ts generalizing b with
  | nil => simp [drain, pending]
  | cons t ts ih =>
    cases t with
    | done => simpa [drain, pending] using ih b
    | running ct p =>
      simp only [drain, pending]
      refine (ih _).trans ?_
      simp

theorem runBatch_outcomes (E : Engine) (sched : List Nat) (ts : List Task) (b : Batch) :
    ((runBatch E sched ts b).outcomes.map Prod.fst).Perm
      (b.outcomes.map Prod.fst ++ pending ts) := by
  induction sched generalizing ts b with
  | nil => exact drain_outcomes E ts b
  | cons i sched ih => exact (ih _ _).trans (stepTask_outcomes E i ts b)

theorem pending_map_running (f : Container → Prog (Except Err String)) (cts : List Container) :
    pending (cts.map fun ct => Task.running ct (f ct)) = cts := by
  induction cts with
  | nil => rfl
  | cons ct cts ih => simp [pending, ih]

theorem stepTask_trace (E : Engine) (P : Request → Prop) (i : Nat) (ts : List Task) (b : Batch)
    (h : tasksEmit P ts) :
    tasksEmit P (stepTask E i ts b).1 ∧
      ∃ new : List Request, (stepTask E i ts b).2.trace = b.trace ++ new ∧ ∀ r ∈ new, P r := by
  unfold stepTask
  split
  · rename_i ct r k heq
    have hmem : Task.running ct (.call r k) ∈ ts := List.getElem?_mem heq
    have hp := h ct _ hmem
    refine ⟨?_, [r], rfl, by simpa using hp.1⟩
    intro ct' p' hin
    rcases List.mem_or_eq_of_mem_set hin with hin | hin
    · exact h ct' p' hin
    · cases hin
      exact hp.2 _
  · rename_i ct res heq
    refine ⟨?_, [], by simp, by simp⟩
    intro ct' p' hin
    rcases List.mem_or_eq_of_mem_set hin with hin | hin
    · exact h ct' p' hin
    · cases hin
  · exact ⟨h, [], by simp, by simp⟩

theorem drain_trace (E : Engine) (P : Request → Prop) (ts : List Task) (b : Batch)
    (h : tasksEmit P ts) :
    ∃ new : List Request, (drain E ts b).trace = b.trace ++ new ∧ ∀ r ∈ new, P r := by
  induction ts generalizing b with
  | nil => exact ⟨[], by simp [drain], by simp⟩
  | cons t ts ih =>
    have hts : tasksEmit P ts := fun ct p hin => h ct p (List.mem_cons_of_mem _ hin)
    cases t with
    | done => exact ih b hts
    | running ct p =>
      obtain ⟨new1, h1, h2⟩ := Prog.run_emits E p (h ct p (List.mem_cons_self _ _)) b.trace
      obtain ⟨new2, h3, h4⟩ :=
        ih (({ b with trace := (p.run E b.trace).2 }).settle ct (p.run E b.trace).1) hts
      refine ⟨new1 ++ new2, ?_, ?_⟩
      · simp only [drain]
        rw [h3]
        simp only [Batch.settle_trace, h1, List.append_assoc]
      · intro r hr
        rcases List.mem_append.1 hr with hr | hr
        · exact h2 r hr
        · exact h4 r hr

theorem runBatch_trace (E : Engine) (P : Request → Prop) (sched : List Nat) (ts : List Task)
    (b : Batch) (h : tasksEmit P ts) :
    ∃ new : List Request, (runBatch E sched ts b).trace = b.trace ++ new ∧ ∀ r ∈ new, P r := by
  induction sched generalizing ts b with
  | nil => exact drain_trace E P ts b h
  | cons i sched ih =>
    obtain ⟨hts, new1, h1, h2⟩ := stepTask_trace E P i ts b h
    obtain ⟨new2, h3, h4⟩ := ih _ (stepTask E i ts b).2 hts
    refine ⟨new1 ++ new2, ?_, ?_⟩
    · simp only [runBatch, h3, h1, List.append_assoc]
    · intro r hr
      rcases List.mem_append.1 hr with hr | hr
      · exact h2 r hr
      · exact h4 r hr

/-! ## The orchestrator: provisioning -/

theorem ensureServiceImage_emits (c : Composer) (ps : Service) (allowBuild forceBuild : Bool)
    (bo : BuildOptions) (quiet : Bool) (pullModeArg : String) :
    (ensureServiceImage c ps allowBuild forceBuild bo quiet pullModeArg).Emits
      (fun r => r.provisions ps = true) := by
  have hens : (if (pullModeArg != "") = true then
        Prog.call (.ensureImage ps.Image pullModeArg ps.Unparsed.Platform ps quiet)
          (fun r => Prog.ret r)
      else
        Prog.call (.ensureImage ps.Image ps.PullMode ps.Unparsed.Platform ps quiet)
          (fun r => Prog.ret r) : Prog (Option Err)).Emits (fun r => r.provisions ps = true) := by
    split <;> exact ⟨by simp [Request.provisions], fun _ => trivial⟩
  unfold ensureServiceImage
  cases ps.Build with
  | none => exact hens
  | some b =>
    dsimp only
    split
    · split
      · exact ⟨by simp [Request.provisions], fun _ => trivial⟩
      · refine ⟨by simp [Request.provisions], fun x => ?_⟩
        cases x with
        | error err => trivial
        | ok found =>
          cases found with
          | false => exact ⟨by simp [Request.provisions], fun _ => trivial⟩
          | true => exact hens
    · exact hens

theorem ensureLoop_emits (c : Composer) (uo : UpOptions) (P : Request → Prop)
    (services : List Service)
    (h : ∀ ps ∈ services, ∀ r, r.provisions ps = true → P r) :
    (ensureLoop c uo services).Emits P := by
  induction services with
  | nil => trivial
  | cons ps rest ih =>
    refine Prog.Emits.bind _ _ ?_ fun a => ?_
    · exact Prog.Emits.mono (h ps (List.mem_cons_self _ _)) _ (ensureServiceImage_emits _ _ _ _ _ _ _)
    · cases a with
      | some err => trivial
      | none => exact ih fun ps' hps => h ps' (List.mem_cons_of_mem _ hps)

theorem ensureLoop_run_append (c : Composer) (uo : UpOptions) (E : Engine)
    (pre rest : List Service) (tr tr1 : Trace)
    (h : (ensureLoop c uo pre).run E tr = (none, tr1)) :
    (ensureLoop c uo (pre ++ rest)).run E tr = (ensureLoop c uo rest).run E tr1 := by
  induction pre generalizing tr with
  | nil =>
    simp only [ensureLoop, Prog.run_ret, Prod.mk.injEq, true_and] at h
    subst h
    rfl
  | cons ps pre ih =>
    simp only [ensureLoop, List.cons_append, Prog.run_bind] at h ⊢
    cases hr : ((ensureServiceImage c ps (!uo.NoBuild) uo.ForceBuild { Args := [] } uo.QuietPull
        uo.Pull).run E tr).1 with
    | some err => simp [hr] at h
    | none =>
      simp only [hr] at h ⊢
      exact ih _ h

theorem provisions_isImageOp (ps : Service) (r : Request) (h : r.provisions ps = true) :
    r.isImageOp = true := by
  cases r <;> simp_all [Request.provisions, Request.isImageOp]

/-- C10. Provisioning precedes launching and fails fast: when the services `pre`
are provisioned without error, in input order and with `allowBuild =
!NoBuild`, and `ensureServiceImage` then fails for the next service `s` with
`err`, `upServices` returns exactly `err` and stops right there: the trace
is the one at the failure, every request issued is an image operation of one
of the services `pre ++ [s]` (no later service is provisioned, no container
is queried, started, removed or created, no log attach, no stop).  An empty
service list is rejected before any request. -/
theorem upServices_provision_failure (d : Decls) (c : Composer) (E : Engine)
    (scheds : List (List Nat)) (pre : List Service) (s : Service) (post : List Service)
    (uo : UpOptions) (tr tr1 tr2 : Trace) (err : Err)
    (hpre : (ensureLoop c uo pre).run E tr = (none, tr1))
    (hfail : (ensureServiceImage c s (!uo.NoBuild) uo.ForceBuild { Args := [] } uo.QuietPull
      uo.Pull).run E tr1 = (some err, tr2)) :
    upServices d c E scheds (pre ++ s :: post) uo tr = (some err, tr2)
    ∧ (∀ r ∈ tr2.drop tr.length, ∃ ps ∈ pre ++ [s], r.provisions ps = true)
    ∧ (∀ r ∈ tr2.drop tr.length, r.isImageOp = true ∧ r.isLaunchOp = false
        ∧ r.isLogs = false ∧ r.isStop = false)
    ∧ upServices d c E scheds [] uo tr = (some (.new "no service was provided"), tr) := by
  have hrun : (ensureLoop c uo (pre ++ s :: post)).run E tr = (some err, tr2) := by
    rw [ensureLoop_run_append c uo E pre (s :: post) tr tr1 hpre]
    simp [ensureLoop, Prog.run_bind, hfail]
  have hrun' : (ensureLoop c uo (pre ++ [s])).run E tr = (some err, tr2) := by
    rw [ensureLoop_run_append c uo E pre [s] tr tr1 hpre]
    simp [ensureLoop, Prog.run_bind, hfail]
  have hem := Prog.run_drop E (ensureLoop c uo (pre ++ [s]))
    (ensureLoop_emits c uo (fun r => ∃ ps ∈ pre ++ [s], r.provisions ps = true) (pre ++ [s])
      (fun ps hps r hr => ⟨ps, hps, hr⟩)) tr
  rw [hrun'] at hem
  refine ⟨?_, hem, ?_, ?_⟩
  · simp [upServices, hrun]
  · intro r hr
    obtain ⟨ps, -, hps⟩ := hem r hr
    have := provisions_isImageOp ps r hps
    cases r <;> simp_all [Request.isImageOp, Request.isLaunchOp, Request.isLogs, Request.isStop]
  · simp [upServices]

/-- Example for C10: the image check of the first service fails; nothing else is
requested and the second service is not provisioned. -/
theorem upServices_provision_failure_witness :
    upServices exDecls exComposer
        (exEngine exFindWeb1 (Except.error (.new "engine down")) none) []
        ([] ++ exWeb :: [exStdin]) exBuilding [] = (some (.new "engine down"),
          [.imageExists "nginx"])
    ∧ (∀ r ∈ [Request.imageExists "nginx"].drop ([] : Trace).length,
        ∃ ps ∈ [] ++ [exWeb], r.provisions ps = true)
    ∧ (∀ r ∈ [Request.imageExists "nginx"].drop ([] : Trace).length,
        r.isImageOp = true ∧ r.isLaunchOp = false ∧ r.isLogs = false ∧ r.isStop = false)
    ∧ upServices exDecls exComposer
        (exEngine exFindWeb1 (Except.error (.new "engine down")) none) [] [] exBuilding []
        = (some (.new "no service was provided"), []) :=
  upServices_provision_failure exDecls exComposer
    (exEngine exFindWeb1 (Except.error (.new "engine down")) none) [] [] exWeb [exStdin]
    exBuilding [] [] [.imageExists "nginx"] (.new "engine down") rfl rfl

/-! ## The orchestrator: launching -/

theorem launchLoop_cons (d : Decls) (c : Composer) (E : Engine) (recreate : String)
    (scheds : List (List Nat)) (ps : Service) (rest : List Service) (st : UpState) :
    launchLoop d c E recreate scheds (ps :: rest) st =
      match (launchBatch d c E recreate (scheds.headD []) ps st).err with
      | some err =>
        (some err,
          { containers := (launchBatch d c E recreate (scheds.headD []) ps st).containers
            services := st.services ++ [ps.Unparsed.Name]
            outcomes := st.outcomes ++ (launchBatch d c E recreate (scheds.headD []) ps st).outcomes
            trace := (launchBatch d c E recreate (scheds.headD []) ps st).trace })
      | none =>
        launchLoop d c E recreate scheds.tail rest
          { containers := (launchBatch d c E recreate (scheds.headD []) ps st).containers
            services := st.services ++ [ps.Unparsed.Name]
            outcomes := st.outcomes ++ (launchBatch d c E recreate (scheds.headD []) ps st).outcomes
            trace := (launchBatch d c E recreate (scheds.headD []) ps st).trace } := by
  cases scheds <;> rfl

theorem launchBatch_trace (d : Decls) (c : Composer) (E : Engine) (recreate : String)
    (P : Request → Prop) (sched : List Nat) (ps : Service) (st : UpState)
    (hP : ∀ ct ∈ ps.Containers, (upServiceContainer d c ps ct recreate).Emits P) :
    ∃ new : List Request,
      (launchBatch d c E recreate sched ps st).trace = st.trace ++ new ∧ ∀ r ∈ new, P r := by
  refine runBatch_trace E P sched _ _ ?_
  intro ct p hin
  obtain ⟨ct', hct', heq⟩ := List.mem_map.1 hin
  cases heq
  exact hP ct hct'

theorem launchBatch_outcomes (d : Decls) (c : Composer) (E : Engine) (recreate : String)
    (sched : List Nat) (ps : Service) (st : UpState) :
    ((launchBatch d c E recreate sched ps st).outcomes.map Prod.fst).Perm ps.Containers := by
  have := runBatch_outcomes E sched
    (ps.Containers.map fun container =>
      Task.running container (upServiceContainer d c ps container recreate))
    { containers := st.containers, err := none, outcomes := [], trace := st.trace }
  simpa [launchBatch, pending_map_running] using this

theorem launchBatch_err (d : Decls) (c : Composer) (E : Engine) (recreate : String)
    (sched : List Nat) (ps : Service) (st : UpState) :
    (launchBatch d c E recreate sched ps st).err =
      (failures (launchBatch d c E recreate sched ps st).outcomes).head? :=
  runBatch_err E sched _ _ rfl

/-- The launch loop only issues requests that some launcher of its services can issue. -/
theorem launchLoop_trace (d : Decls) (c : Composer) (E : Engine) (recreate : String)
    (P : Request → Prop) (services : List Service)
    (hP : ∀ ps ∈ services, ∀ ct ∈ ps.Containers, (upServiceContainer d c ps ct recreate).Emits P)
    (scheds : List (List Nat)) (st : UpState) :
    ∃ new : List Request,
      (launchLoop d c E recreate scheds services st).2.trace = st.trace ++ new
        ∧ ∀ r ∈ new, P r := by
  induction services generalizing scheds st with
  | nil => exact ⟨[], by simp [launchLoop], by simp⟩
  | cons ps rest ih =>
    obtain ⟨new1, h1, h2⟩ := launchBatch_trace d c E recreate P (scheds.headD []) ps st
      (hP ps (List.mem_cons_self _ _))
    rw [launchLoop_cons]
    cases (launchBatch d c E recreate (scheds.headD []) ps st).err with
    | some err => exact ⟨new1, h1, h2⟩
    | none =>
      obtain ⟨new2, h3, h4⟩ := ih (fun ps' hps => hP ps' (List.mem_cons_of_mem _ hps))
        scheds.tail
        { containers := (launchBatch d c E recreate (scheds.headD []) ps st).containers
          services := st.services ++ [ps.Unparsed.Name]
          outcomes := st.outcomes ++ (launchBatch d c E recreate (scheds.headD []) ps st).outcomes
          trace := (launchBatch d c E recreate (scheds.headD []) ps st).trace }
      refine ⟨new1 ++ new2, ?_, ?_⟩
      · rw [h3]
        simp only [h1, List.append_assoc]
      · intro r hr
        rcases List.mem_append.1 hr with hr | hr
        · exact h2 r hr
        · exact h4 r hr

/-- After a launch loop without error every goroutine has returned a success,
one per declared container. -/
theorem launchLoop_ok (d : Decls) (c : Composer) (E : Engine) (recreate : String)
    (services : List Service) (scheds : List (List Nat)) (st st' : UpState)
    (h : launchLoop d c E recreate scheds services st = (none, st')) :
    failures st'.outcomes = failures st.outcomes
      ∧ (st'.outcomes.map Prod.fst).Perm
          (st.outcomes.map Prod.fst ++ services.flatMap (fun ps => ps.Containers)) := by
  induction services generalizing scheds st with
  | nil =>
    simp only [launchLoop, Prod.mk.injEq, true_and] at h
    subst h
    simp
  | cons ps rest ih =>
    rw [launchLoop_cons] at h
    have herr := launchBatch_err d c E recreate (scheds.headD []) ps st
    have hout := launchBatch_outcomes d c E recreate (scheds.headD []) ps st
    generalize launchBatch d c E recreate (scheds.headD []) ps st = B at h herr hout
    cases hb : B.err with
    | some err =>
      rw [hb] at h
      cases h
    | none =>
      rw [hb] at h
      obtain ⟨h1, h2⟩ := ih _ _ h
      have hnil : failures B.outcomes = [] := by
        rw [hb] at herr
        exact List.head?_eq_none_iff.1 herr.symm
      refine ⟨by simpa [failures_append, hnil] using h1, h2.trans ?_⟩
      simp only [List.map_append, List.flatMap_cons, List.append_assoc]
      exact List.Perm.append_left _ (List.Perm.append_right _ hout)

/-- The registry invariant of the launch loop: when the identifiers returned by
the successful launches are pairwise distinct, the registry holds exactly
their pairs. -/
theorem launchLoop_perm_successes (d : Decls) (c : Composer) (E : Engine) (recreate : String)
    (services : List Service) (scheds : List (List Nat)) (st : UpState)
    (h : ((successes st.outcomes).map Prod.fst).Nodup → st.containers.Perm (successes st.outcomes)) :
    ((successes (launchLoop d c E recreate scheds services st).2.outcomes).map Prod.fst).Nodup →
      (launchLoop d c E recreate scheds services st).2.containers.Perm
        (successes (launchLoop d c E recreate scheds services st).2.outcomes) := by
  induction services generalizing scheds st with
  | nil => simpa [launchLoop] using h
  | cons ps rest ih =>
    have hb := runBatch_perm_successes E (scheds.headD [])
      (ps.Containers.map fun container =>
        Task.running container (upServiceContainer d c ps container recreate))
      { containers := st.containers, err := none, outcomes := [], trace := st.trace }
      st.outcomes (by simpa using h)
    rw [launchLoop_cons]
    cases (launchBatch d c E recreate (scheds.headD []) ps st).err with
    | some err => exact hb
    | none => exact ih _ _ hb

theorem launchLoop_split (d : Decls) (c : Composer) (E : Engine) (recreate : String)
    (pre rest : List Service) (scheds : List (List Nat)) (st st1 : UpState)
    (h : launchLoop d c E recreate scheds pre st = (none, st1)) :
    launchLoop d c E recreate scheds (pre ++ rest) st =
      launchLoop d c E recreate (scheds.drop pre.length) rest st1 := by
  induction pre generalizing scheds st with
  | nil =>
    simp only [launchLoop, Prod.mk.injEq, true_and] at h
    subst h
    rfl
  | cons ps pre ih =>
    rw [launchLoop_cons] at h
    rw [List.cons_append, launchLoop_cons]
    generalize launchBatch d c E recreate (scheds.headD []) ps st = B at h ⊢
    cases hb : B.err with
    | some err =>
      rw [hb] at h
      cases h
    | none =>
      rw [hb] at h
      simp only [ih _ _ h]
      cases scheds <;> simp

theorem upServiceContainer_launchOf (d : Decls) (c : Composer) (ps : Service) (ct : Container)
    (recreate : String) :
    (upServiceContainer d c ps ct recreate).Emits (Request.LaunchOf d c ps ct) := by
  apply upServiceContainer_emits
  · exact ⟨rfl, rfl⟩
  · exact fun e => Or.inl ⟨e, rfl⟩
  · exact Or.inr (Or.inl rfl)
  · exact fun f hf => ⟨hf, rfl⟩
  · rfl
  · exact fun tempDir => Or.inr (Or.inr ⟨tempDir, rfl⟩)
  · exact fun tempDir => ⟨tempDir, rfl⟩
  · exact fun _ => trivial

theorem launchOf_not_attach (d : Decls) (c : Composer) (ps : Service) (ct : Container)
    (r : Request) (h : r.LaunchOf d c ps ct) :
    r.isLaunchOp = true ∧ r.isImageOp = false ∧ r.isLogs = false ∧ r.isStop = false := by
  cases r <;>
    simp_all [Request.LaunchOf, Request.isLaunchOp, Request.isImageOp, Request.isLogs,
      Request.isStop]

theorem provisions_not_attach (ps : Service) (r : Request) (h : r.provisions ps = true) :
    r.isLogs = false ∧ r.isStop = false := by
  cases r <;> simp_all [Request.provisions, Request.isLogs, Request.isStop]

/-- Provisioning and launching never call the log-attach or the stop collaborator. -/
theorem phases_not_attach (d : Decls) (c : Composer) (E : Engine) (recreate : String)
    (scheds : List (List Nat)) (services launched : List Service) (uo : UpOptions)
    (tr tr1 : Trace) (err : Option Err)
    (hprov : (ensureLoop c uo services).run E tr = (err, tr1)) (st : UpState)
    (hst : st.trace = tr1) :
    ∀ r ∈ ((launchLoop d c E recreate scheds launched st).2.trace).drop tr.length,
      r.isLogs = false ∧ r.isStop = false := by
  obtain ⟨new1, h1, h2⟩ := Prog.run_emits E (ensureLoop c uo services)
    (ensureLoop_emits c uo (fun r => r.isLogs = false ∧ r.isStop = false) services
      (fun ps _ r hr => provisions_not_attach ps r hr)) tr
  obtain ⟨new2, h3, h4⟩ := launchLoop_trace d c E recreate
    (fun r => r.isLogs = false ∧ r.isStop = false) launched
    (fun ps _ ct _ => Prog.Emits.mono
      (fun r hr => ⟨(launchOf_not_attach d c ps ct r hr).2.2.1,
        (launchOf_not_attach d c ps ct r hr).2.2.2⟩)
      _ (upServiceContainer_launchOf d c ps ct recreate)) scheds st
  rw [hprov] at h1
  simp only at h1
  rw [h3, hst, h1, List.append_assoc, List.drop_left]
  intro r hr
  rcases List.mem_append.1 hr with hr | hr
  · exact h2 r hr
  · exact h4 r hr

/-! ## Every outcome is the result of a launcher that ran against the engine -/

theorem Prog.runsTo_nil {α : Type} (E : Engine) (final : Trace) (p q : Prog α) :
    p.RunsTo E final [] q ↔ p = q := by
  cases p <;> simp [Prog.RunsTo]

theorem Prog.RunsTo.weaken {α : Type} {E : Engine} {final final' : Trace}
    (hpre : final <+: final') {p q : Prog α} {hs : List Trace}
    (h : p.RunsTo E final hs q) : p.RunsTo E final' hs q := by
  induction hs generalizing p with
  | nil => exact (Prog.runsTo_nil E final' p q).2 ((Prog.runsTo_nil E final p q).1 h)
  | cons t hs ih =>
    cases p with
    | ret a => exact h
    | call r k => exact ⟨h.1.trans hpre, ih h.2⟩

theorem Prog.RunsTo.append {α : Type} {E : Engine} {final : Trace} {p q s : Prog α}
    {hs hs' : List Trace} (h : p.RunsTo E final hs q) (h' : q.RunsTo E final hs' s) :
    p.RunsTo E final (hs ++ hs') s := by
  induction hs generalizing p with
  | nil =>
    have : p = q := (Prog.runsTo_nil E final p q).1 h
    subst this
    exact h'
  | cons t hs ih =>
    cases p with
    | ret a => exact h.elim
    | call r k => exact ⟨h.1, ih h.2⟩

theorem Prog.run_extends {α : Type} (E : Engine) (p : Prog α) (tr : Trace) :
    tr <+: (p.run E tr).2 := by
  obtain ⟨new, h, -⟩ := Prog.run_emits E p (P := fun _ => True)
    (by induction p with
      | ret a => trivial
      | call r k ih => exact ⟨trivial, ih⟩) tr
  exact ⟨new, h.symm⟩

/-- Running a program to its end is a run against the engine. -/
theorem Prog.run_runsTo {α : Type} (E : Engine) (p : Prog α) (tr : Trace) :
    ∃ hs : List Trace, p.RunsTo E (p.run E tr).2 hs (.ret (p.run E tr).1)
      ∧ ∀ t ∈ hs, tr.length ≤ t.length := by
  induction p generalizing tr with
  | ret a => exact ⟨[], (Prog.runsTo_nil E _ _ _).2 rfl, by simp⟩
  | call r k ih =>
    obtain ⟨hs, h1, h2⟩ := ih (E tr r) (tr ++ [r])
    refine ⟨tr :: hs, ⟨Prog.run_extends E _ _, h1⟩, ?_⟩
    intro t ht
    rcases List.mem_cons.1 ht with rfl | ht
    · exact le_refl _
    · have := h2 t ht
      simp at this
      omega


theorem stepTask_genuine (E : Engine) (f : Container → Prog (Except Err String)) (n : Nat)
    (i : Nat) (ts : List Task) (b : Batch) (h : Genuine E f n ts b) :
    Genuine E f n (stepTask E i ts b).1 (stepTask E i ts b).2 := by
  obtain ⟨hn, hrun, hout⟩ := h
  unfold stepTask
  split
  · rename_i ct r k heq
    have hpre : b.trace <+: b.trace ++ [r] := List.prefix_append _ _
    refine ⟨by simp; omega, ?_, ?_⟩
    · intro ct' p' hin
      rcases List.mem_or_eq_of_mem_set hin with hin | hin
      · obtain ⟨hs, h1, h2⟩ := hrun ct' p' hin
        exact ⟨hs, h1.weaken hpre, h2⟩
      · cases hin
        obtain ⟨hs, h1, h2⟩ := hrun ct _ (List.getElem?_mem heq)
        refine ⟨hs ++ [b.trace], (h1.weaken hpre).append ?_, ?_⟩
        · exact ⟨List.prefix_refl _, (Prog.runsTo_nil E _ _ _).2 rfl⟩
        · intro t ht
          rcases List.mem_append.1 ht with ht | ht
          · exact h2 t ht
          · rw [List.mem_singleton.1 ht]
            exact hn
    · intro ct' res hin
      obtain ⟨hs, h1, h2⟩ := hout ct' res hin
      exact ⟨hs, h1.weaken hpre, h2⟩
  · rename_i ct res heq
    refine ⟨by simpa using hn, ?_, ?_⟩
    · intro ct' p' hin
      rcases List.mem_or_eq_of_mem_set hin with hin | hin
      · simpa using hrun ct' p' hin
      · cases hin
    · intro ct' res' hin
      simp only [Batch.settle_outcomes, List.mem_append, List.mem_singleton,
        Prod.mk.injEq] at hin
      rcases hin with hin | ⟨rfl, rfl⟩
      · simpa using hout ct' res' hin
      · simpa using hrun ct' _ (List.getElem?_mem heq)
  · exact ⟨hn, hrun, hout⟩

theorem drain_genuine (E : Engine) (f : Container → Prog (Except Err String)) (n : Nat)
    (ts : List Task) (b : Batch) (h : Genuine E f n ts b) :
    Genuine E f n [] (drain E ts b) := by
  induction ts generalizing b with
  | nil => exact h
  | cons t ts ih =>
    obtain ⟨hn, hrun, hout⟩ := h
    cases t with
    | done => exact ih b ⟨hn, fun ct p hin => hrun ct p (List.mem_cons_of_mem _ hin), hout⟩
    | running ct p =>
      have hpre : b.trace <+: (p.run E b.trace).2 := Prog.run_extends E p b.trace
      refine ih _ ⟨?_, ?_, ?_⟩
      · simpa using le_trans hn hpre.length_le
      · intro ct' p' hin
        obtain ⟨hs, h1, h2⟩ := hrun ct' p' (List.mem_cons_of_mem _ hin)
        exact ⟨hs, by simpa using h1.weaken hpre, h2⟩
      · intro ct' res hin
        simp only [Batch.settle_outcomes, List.mem_append, List.mem_singleton,
          Prod.mk.injEq] at hin
        rcases hin with hin | ⟨rfl, rfl⟩
        · obtain ⟨hs, h1, h2⟩ := hout ct' res hin
          exact ⟨hs, by simpa using h1.weaken hpre, h2⟩
        · obtain ⟨hs, h1, h2⟩ := hrun ct' p (List.mem_cons_self _ _)
          obtain ⟨hs', h3, h4⟩ := Prog.run_runsTo E p b.trace
          refine ⟨hs ++ hs', by simpa using (h1.weaken hpre).append h3, ?_⟩
          intro t ht
          rcases List.mem_append.1 ht with ht | ht
          · exact h2 t ht
          · exact le_trans hn (h4 t ht)

theorem runBatch_genuine (E : Engine) (f : Container → Prog (Except Err String)) (n : Nat)
    (sched : List Nat) (ts : List Task) (b : Batch) (h : Genuine E f n ts b) :
    Genuine E f n [] (runBatch E sched ts b) := by
  induction sched generalizing ts b with
  | nil => exact drain_genuine E f n ts b h
  | cons i sched ih => exact ih _ _ (stepTask_genuine E f n i ts b h)

/-- Every outcome of a batch is the result of the launcher of its container,
run to its end against the engine with all its requests in the trace of the
batch. -/
theorem launchBatch_genuine (d : Decls) (c : Composer) (E : Engine) (recreate : String)
    (sched : List Nat) (ps : Service) (st : UpState) :
    ∀ ct res, (ct, res) ∈ (launchBatch d c E recreate sched ps st).outcomes →
      ∃ hs : List Trace,
        (upServiceContainer d c ps ct recreate).RunsTo E
          (launchBatch d c E recreate sched ps st).trace hs (.ret res)
        ∧ ∀ t ∈ hs, st.trace.length ≤ t.length := by
  have := runBatch_genuine E (fun ct => upServiceContainer d c ps ct recreate) st.trace.length
    sched
    (ps.Containers.map fun container =>
      Task.running container (upServiceContainer d c ps container recreate))
    { containers := st.containers, err := none, outcomes := [], trace := st.trace }
    ⟨le_refl _, ?_, by simp⟩
  · exact this.2.2
  · intro ct p hin
    obtain ⟨ct', -, heq⟩ := List.mem_map.1 hin
    cases heq
    exact ⟨[], (Prog.runsTo_nil E _ _ _).2 rfl, by simp⟩

theorem mem_drop_of_prefix {t final : Trace} {r : Request} {n : Nat}
    (h : (t ++ [r]) <+: final) (hn : n ≤ t.length) : r ∈ final.drop n := by
  obtain ⟨rest, rfl⟩ := h
  rw [List.append_assoc, List.drop_append_of_le_length hn]
  simp

/-- The launcher of a container that has an outcome has issued its existence query. -/
theorem query_of_runsTo (d : Decls) (c : Composer) (E : Engine) (recreate : String)
    (ps : Service) (ct : Container) (final : Trace) (hs : List Trace)
    (res : Except Err String) (n : Nat)
    (h : (upServiceContainer d c ps ct recreate).RunsTo E final hs (.ret res))
    (hn : ∀ t ∈ hs, n ≤ t.length) :
    Request.containerID ct.Name ps.Unparsed.Name ∈ final.drop n := by
  cases hs with
  | nil =>
    have := (Prog.runsTo_nil E _ _ _).1 h
    simp [upServiceContainer] at this
  | cons t hs =>
    have h1 : (t ++ [Request.containerID ct.Name ps.Unparsed.Name]) <+: final := h.1
    exact mem_drop_of_prefix h1 (hn t (List.mem_cons_self _ _))

theorem launchBatch_extends (d : Decls) (c : Composer) (E : Engine) (recreate : String)
    (sched : List Nat) (ps : Service) (st : UpState) :
    st.trace <+: (launchBatch d c E recreate sched ps st).trace := by
  obtain ⟨new, h, -⟩ := launchBatch_trace d c E recreate (fun _ => True) sched ps st
    (fun ct _ => Prog.Emits.mono (fun _ _ => trivial) _
      (upServiceContainer_launchOf d c ps ct recreate))
  exact ⟨new, h.symm⟩

/-- Every outcome of the launch loop is the result of the launcher of a
container of one of the services, run to its end against the engine. -/
theorem launchLoop_genuine (d : Decls) (c : Composer) (E : Engine) (recreate : String)
    (all services : List Service) (hsub : ∀ ps ∈ services, ps ∈ all)
    (scheds : List (List Nat)) (st : UpState) (n : Nat) (hn : n ≤ st.trace.length)
    (h : ∀ ct res, (ct, res) ∈ st.outcomes →
      ∃ ps ∈ all, ct ∈ ps.Containers ∧ ∃ hs : List Trace,
        (upServiceContainer d c ps ct recreate).RunsTo E st.trace hs (.ret res)
        ∧ ∀ t ∈ hs, n ≤ t.length) :
    ∀ ct res, (ct, res) ∈ (launchLoop d c E recreate scheds services st).2.outcomes →
      ∃ ps ∈ all, ct ∈ ps.Containers ∧ ∃ hs : List Trace,
        (upServiceContainer d c ps ct recreate).RunsTo E
          (launchLoop d c E recreate scheds services st).2.trace hs (.ret res)
        ∧ ∀ t ∈ hs, n ≤ t.length := by
  induction services generalizing scheds st with
  | nil => simpa [launchLoop] using h
  | cons ps rest ih =>
    have hpre := launchBatch_extends d c E recreate (scheds.headD []) ps st
    have hgen := launchBatch_genuine d c E recreate (scheds.headD []) ps st
    have hout := launchBatch_outcomes d c E recreate (scheds.headD []) ps st
    have hstep : ∀ ct res,
        (ct, res) ∈ st.outcomes ++ (launchBatch d c E recreate (scheds.headD []) ps st).outcomes →
        ∃ ps' ∈ all, ct ∈ ps'.Containers ∧ ∃ hs : List Trace,
          (upServiceContainer d c ps' ct recreate).RunsTo E
            (launchBatch d c E recreate (scheds.headD []) ps st).trace hs (.ret res)
          ∧ ∀ t ∈ hs, n ≤ t.length := by
      intro ct res hin
      rcases List.mem_append.1 hin with hin | hin
      · obtain ⟨ps', hps', hct, hs, h1, h2⟩ := h ct res hin
        exact ⟨ps', hps', hct, hs, h1.weaken hpre, h2⟩
      · obtain ⟨hs, h1, h2⟩ := hgen ct res hin
        have hct : ct ∈ ps.Containers :=
          hout.subset (List.mem_map.2 ⟨(ct, res), hin, rfl⟩)
        exact ⟨ps, hsub ps (List.mem_cons_self _ _), hct, hs, h1,
          fun t ht => le_trans hn (h2 t ht)⟩
    rw [launchLoop_cons]
    generalize launchBatch d c E recreate (scheds.headD []) ps st = B at hpre hstep ⊢
    cases B.err with
    | some err => exact hstep
    | none =>
      exact ih (fun ps' hps' => hsub ps' (List.mem_cons_of_mem _ hps')) _ _
        (le_trans hn hpre.length_le) hstep

/-- The identifier of every successful launch of the launch loop is a key of
the registry. -/
theorem launchLoop_keys (d : Decls) (c : Composer) (E : Engine) (recreate : String)
    (services : List Service) (scheds : List (List Nat)) (st : UpState)
    (h : ∀ id ∈ (successes st.outcomes).map Prod.fst, id ∈ st.containers.keys) :
    ∀ id ∈ (successes (launchLoop d c E recreate scheds services st).2.outcomes).map Prod.fst,
      id ∈ (launchLoop d c E recreate scheds services st).2.containers.keys := by
  induction services generalizing scheds st with
  | nil => simpa [launchLoop] using h
  | cons ps rest ih =>
    have hb := runBatch_keys E (scheds.headD [])
      (ps.Containers.map fun container =>
        Task.running container (upServiceContainer d c ps container recreate))
      { containers := st.containers, err := none, outcomes := [], trace := st.trace }
      st.outcomes (by simpa using h)
    rw [launchLoop_cons]
    cases (launchBatch d c E recreate (scheds.headD []) ps st).err with
    | some err => exact hb
    | none => exact ih _ _ hb

theorem ok_of_no_failure {xs : List (Container × Except Err String)} (h : failures xs = [])
    {ct : Container} {res : Except Err String} (hin : (ct, res) ∈ xs) :
    ∃ id, res = Except.ok id := by
  cases res with
  | ok id => exact ⟨id, rfl⟩
  | error e =>
    have : e ∈ failures xs := mem_failures.2 ⟨ct, hin⟩
    rw [h] at this
    cases this

/-- C3, as stated, fails: the service `web` listed twice declares two containers,
both launches succeed with the identifier `c1` found for the name `web-1`,
and the registry ends with one entry. -/
theorem launchLoop_registry_counterexample :
    (launchLoop exDecls exComposer (exEngine exFindWeb1 (Except.ok true) none) "never" []
        [exWeb, exWeb] exProvisioned).1 = none
    ∧ (launchLoop exDecls exComposer (exEngine exFindWeb1 (Except.ok true) none) "never" []
        [exWeb, exWeb] exProvisioned).2.containers.length = 1
    ∧ ([exWeb, exWeb].flatMap fun ps => ps.Containers).length = 2 := by
  decide

/-- C3, amended. After a launch phase in which every launch succeeds and the
identifiers the launches return are pairwise distinct, for every schedule of
the goroutines of every batch, the registry has exactly as many entries as
containers are declared, its identifiers are pairwise distinct, its
containers are the declared ones (each once), and its entries are exactly the
(identifier, container) pairs the launches returned. -/
theorem launchLoop_registry_cardinality (d : Decls) (c : Composer) (E : Engine)
    (recreate : String) (scheds : List (List Nat)) (services : List Service) (tr1 : Trace)
    (st : UpState)
    (hlaunch : launchLoop d c E recreate scheds services
      { containers := [], services := [], outcomes := [], trace := tr1 } = (none, st))
    (hdistinct : ((successes st.outcomes).map Prod.fst).Nodup) :
    st.containers.length = (services.flatMap fun ps => ps.Containers).length
    ∧ st.containers.keys.Nodup
    ∧ (st.containers.map Prod.snd).Perm (services.flatMap fun ps => ps.Containers)
    ∧ st.containers.Perm (successes st.outcomes) := by
  have hreg := launchLoop_perm_successes d c E recreate services scheds
    { containers := [], services := [], outcomes := [], trace := tr1 }
    (fun _ => by simp [successes])
  rw [hlaunch] at hreg
  have hperm := hreg hdistinct
  obtain ⟨hfail, hout⟩ := launchLoop_ok d c E recreate services scheds _ st hlaunch
  have hsnd := successes_snd_of_no_failure st.outcomes (by simpa [failures] using hfail)
  have hcts : (st.containers.map Prod.snd).Perm (services.flatMap fun ps => ps.Containers) := by
    refine (hperm.map Prod.snd).trans ?_
    rw [hsnd]
    simpa using hout
  refine ⟨?_, ?_, hcts, hperm⟩
  · simpa using hcts.length_eq
  · exact (hperm.map Prod.fst).nodup_iff.2 hdistinct

/-- Example for C3 amended: the two containers of `web` are launched with the
distinct identifiers `c1` and `c2`. -/
theorem launchLoop_registry_cardinality_witness :
    exLaunched.containers.length = ([exWebTwo].flatMap fun ps => ps.Containers).length
    ∧ exLaunched.containers.keys.Nodup
    ∧ (exLaunched.containers.map Prod.snd).Perm ([exWebTwo].flatMap fun ps => ps.Containers)
    ∧ exLaunched.containers.Perm (successes exLaunched.outcomes) :=
  launchLoop_registry_cardinality exDecls exComposer
    (exEngine exFindWeb1 (Except.ok true) none) "never" [[1, 0, 0, 1]] [exWebTwo]
    [.ensureImage "nginx" "missing" "" exWebTwo false] exLaunched (by decide) (by decide)

/-- C4. Failure of a launch batch: when provisioning succeeds, the batches of the
services `pre` succeed, and some launch of the next service `s` fails, then
for every schedule (1) every goroutine of the batch of `s` has returned, one
per container of `s`; each of these outcomes is the result of the launcher
of its container run to its end against the engine, all its requests being
in the trace of the batch (so the existence query of every sibling is
there); the identifier of every launch of the batch that succeeded is a key
of the registry; (2) after provisioning, every request issued is a request
of the launcher of a container of one of the services `pre ++ [s]` (its
query, its removal, its `run` command, its directories); (3) `upServices`
returns one of the errors returned by the failed launches of `s`, with the
trace at the end of that batch; (4) neither the log-attach nor the stop
collaborator is called, whatever the options. -/
theorem upServices_launch_failure (d : Decls) (c : Composer) (E : Engine)
    (scheds : List (List Nat)) (pre : List Service) (s : Service) (post : List Service)
    (uo : UpOptions) (tr tr1 : Trace) (st1 : UpState) (b : Batch)
    (hprov : (ensureLoop c uo (pre ++ s :: post)).run E tr = (none, tr1))
    (hpre : launchLoop d c E (d.recreateStrategy uo) scheds pre
      { containers := [], services := [], outcomes := [], trace := tr1 } = (none, st1))
    (hb : launchBatch d c E (d.recreateStrategy uo) ((scheds.drop pre.length).headD []) s st1 = b)
    (hfail : failures b.outcomes ≠ []) :
    (b.outcomes.map Prod.fst).Perm s.Containers
    ∧ (∀ ct res, (ct, res) ∈ b.outcomes →
        ∃ hs : List Trace,
          (upServiceContainer d c s ct (d.recreateStrategy uo)).RunsTo E b.trace hs (.ret res)
          ∧ ∀ t ∈ hs, st1.trace.length ≤ t.length)
    ∧ (∀ ct ∈ s.Containers,
        Request.containerID ct.Name s.Unparsed.Name ∈ b.trace.drop st1.trace.length)
    ∧ (∀ ct id, (ct, Except.ok id) ∈ b.outcomes → id ∈ b.containers.keys)
    ∧ (∀ r ∈ b.trace.drop tr1.length,
        ∃ ps ∈ pre ++ [s], ∃ ct ∈ ps.Containers, r.LaunchOf d c ps ct)
    ∧ (∃ e ∈ failures b.outcomes,
        upServices d c E scheds (pre ++ s :: post) uo tr = (some e, b.trace))
    ∧ (∀ r ∈ b.trace.drop tr.length, r.isLogs = false ∧ r.isStop = false) := by
  have herr := launchBatch_err d c E (d.recreateStrategy uo)
    ((scheds.drop pre.length).headD []) s st1
  have hperm := launchBatch_outcomes d c E (d.recreateStrategy uo)
    ((scheds.drop pre.length).headD []) s st1
  have hgen := launchBatch_genuine d c E (d.recreateStrategy uo)
    ((scheds.drop pre.length).headD []) s st1
  rw [hb] at herr hperm hgen
  obtain ⟨e, es, hes⟩ := List.exists_cons_of_ne_nil hfail
  have herr' : b.err = some e := by rw [herr, hes]; rfl
  have hloop : ∀ rest, launchLoop d c E (d.recreateStrategy uo) scheds (pre ++ s :: rest)
      { containers := [], services := [], outcomes := [], trace := tr1 } =
      (some e, { containers := b.containers, services := st1.services ++ [s.Unparsed.Name],
                 outcomes := st1.outcomes ++ b.outcomes, trace := b.trace }) := by
    intro rest
    rw [launchLoop_split d c E _ pre (s :: rest) scheds _ st1 hpre, launchLoop_cons, hb, herr']
  refine ⟨hperm, hgen, ?_, ?_, ?_, ⟨e, by simp [hes], ?_⟩, ?_⟩
  · intro ct hct
    obtain ⟨⟨ct', res⟩, hin, rfl⟩ := List.mem_map.1 (hperm.symm.subset hct)
    obtain ⟨hs, h1, h2⟩ := hgen ct' res hin
    exact query_of_runsTo d c E _ s ct' b.trace hs res _ h1 h2
  · intro ct id hmem
    have := runBatch_keys E ((scheds.drop pre.length).headD [])
      (s.Containers.map fun container =>
        Task.running container (upServiceContainer d c s container (d.recreateStrategy uo)))
      { containers := st1.containers, err := none, outcomes := [], trace := st1.trace } []
      (by simp [successes])
    simp only [List.nil_append] at this
    have hb' : runBatch E ((scheds.drop pre.length).headD [])
      (s.Containers.map fun container =>
        Task.running container (upServiceContainer d c s container (d.recreateStrategy uo)))
      { containers := st1.containers, err := none, outcomes := [], trace := st1.trace } = b := hb
    rw [hb'] at this
    exact this id (List.mem_map.2 ⟨(id, ct), mem_successes.2 hmem, rfl⟩)
  · obtain ⟨new, h1, h2⟩ := launchLoop_trace d c E (d.recreateStrategy uo)
      (fun r => ∃ ps ∈ pre ++ [s], ∃ ct ∈ ps.Containers, r.LaunchOf d c ps ct) (pre ++ [s])
      (fun ps hps ct hct => Prog.Emits.mono (fun r hr => ⟨ps, hps, ct, hct, hr⟩) _
        (upServiceContainer_launchOf d c ps ct _)) scheds
      { containers := [], services := [], outcomes := [], trace := tr1 }
    rw [hloop []] at h1
    simp only at h1
    rw [h1, List.drop_left]
    exact h2
  · simp [upServices, hprov, hloop post]
  · have := phases_not_attach d c E (d.recreateStrategy uo) scheds (pre ++ s :: post)
      (pre ++ s :: post) uo tr tr1 none hprov
      { containers := [], services := [], outcomes := [], trace := tr1 } rfl
    rw [hloop post] at this
    exact this

/-- Example for C4: `db`, `web` and `cache` are brought up; `db-1` is created,
then the existence query fails for `web-2`.  Its sibling `web-1` is still
queried, started and registered, `upServices` returns the error of `web-2`,
and nothing is requested for `cache-1`. -/
theorem upServices_launch_failure_witness :
    (exFailedBatch.outcomes.map Prod.fst).Perm exWebTwo.Containers
    ∧ (∀ ct res, (ct, res) ∈ exFailedBatch.outcomes →
        ∃ hs : List Trace,
          (upServiceContainer exDecls exComposer exWebTwo ct "never").RunsTo
            (exEngine exFailWeb2 (Except.ok true) none) exFailedBatch.trace hs (.ret res)
          ∧ ∀ t ∈ hs, exAfterDb.trace.length ≤ t.length)
    ∧ (∀ ct ∈ exWebTwo.Containers,
        Request.containerID ct.Name exWebTwo.Unparsed.Name
          ∈ exFailedBatch.trace.drop exAfterDb.trace.length)
    ∧ (∀ ct id, (ct, Except.ok id) ∈ exFailedBatch.outcomes →
        id ∈ exFailedBatch.containers.keys)
    ∧ (∀ r ∈ exFailedBatch.trace.drop exProvisioned3.length,
        ∃ ps ∈ [exDb] ++ [exWebTwo], ∃ ct ∈ ps.Containers,
          r.LaunchOf exDecls exComposer ps ct)
    ∧ (∃ e ∈ failures exFailedBatch.outcomes,
        upServices exDecls exComposer (exEngine exFailWeb2 (Except.ok true) none)
          [[0], [1, 0, 1]] ([exDb] ++ exWebTwo :: [exCache]) exAttached []
          = (some e, exFailedBatch.trace))
    ∧ (∀ r ∈ exFailedBatch.trace.drop ([] : Trace).length,
        r.isLogs = false ∧ r.isStop = false) :=
  upServices_launch_failure exDecls exComposer (exEngine exFailWeb2 (Except.ok true) none)
    [[0], [1, 0, 1]] [exDb] exWebTwo [exCache] exAttached [] exProvisioned3
    exAfterDb exFailedBatch (by decide) (by decide) (by decide) (by decide)

/-- The end of an attached `up` with `AbortOnContainerExit`: the deferred stop
runs on both exits. -/
theorem attachLogs_abort (E : Engine) (uo : UpOptions) (latestRun : Bool)
    (containers : Registry) (services : List String) (tr : Trace)
    (habort : uo.AbortOnContainerExit = true) :
    (attachLogs uo latestRun containers services).run E tr =
      match E tr (.logs
        { AbortOnContainerExit := true, Follow := true, NoColor := uo.NoColor,
          NoLogPrefix := uo.NoLogPrefix, LatestRun := latestRun } services) with
      | none =>
        (none, tr ++ [.logs
          { AbortOnContainerExit := true, Follow := true, NoColor := uo.NoColor,
            NoLogPrefix := uo.NoLogPrefix, LatestRun := latestRun } services,
          .stopContainers containers, .stopContainers containers])
      | some e =>
        (some e, tr ++ [.logs
          { AbortOnContainerExit := true, Follow := true, NoColor := uo.NoColor,
            NoLogPrefix := uo.NoLogPrefix, LatestRun := latestRun } services,
          .stopContainers containers]) := by
  obtain ⟨ab, det, nb, nc, nlp, fb, qp, pull⟩ := uo
  simp only at habort
  subst habort
  cases h : E tr (.logs
        { AbortOnContainerExit := true, Follow := true, NoColor := nc,
          NoLogPrefix := nlp, LatestRun := latestRun } services) with
  | none => simp [attachLogs, Prog.run_bind, h]
  | some e => simp [attachLogs, Prog.run_bind, h]

/-- C5. Stop guarantee under `AbortOnContainerExit`: with `Detach = false` and
`AbortOnContainerExit = true`, after successful provisioning and launch
phases, the stop collaborator is called with the registry of the launch
phase: twice when the log attach returns without error (and `upServices`
returns no error), once when the log attach returns an error (and
`upServices` returns that error).  That registry is the full one: every
declared container has been launched, by a launcher that ran to its end
against the engine and returned an identifier, and every such identifier is
a key of the registry. -/
theorem upServices_abort_stops (d : Decls) (c : Composer) (E : Engine)
    (scheds : List (List Nat)) (services : List Service) (uo : UpOptions) (tr tr1 : Trace)
    (st : UpState)
    (hne : services ≠ [])
    (hdet : uo.Detach = false) (habort : uo.AbortOnContainerExit = true)
    (hprov : (ensureLoop c uo services).run E tr = (none, tr1))
    (hlaunch : launchLoop d c E (d.recreateStrategy uo) scheds services
      { containers := [], services := [], outcomes := [], trace := tr1 } = (none, st)) :
    (E st.trace (.logs
        { AbortOnContainerExit := true, Follow := true, NoColor := uo.NoColor,
          NoLogPrefix := uo.NoLogPrefix,
          LatestRun := d.recreateStrategy uo == d.RecreateNever } st.services) = none →
      upServices d c E scheds services uo tr =
        (none, st.trace ++ [.logs
          { AbortOnContainerExit := true, Follow := true, NoColor := uo.NoColor,
            NoLogPrefix := uo.NoLogPrefix,
            LatestRun := d.recreateStrategy uo == d.RecreateNever } st.services,
          .stopContainers st.containers, .stopContainers st.containers]))
    ∧ (∀ e, E st.trace (.logs
        { AbortOnContainerExit := true, Follow := true, NoColor := uo.NoColor,
          NoLogPrefix := uo.NoLogPrefix,
          LatestRun := d.recreateStrategy uo == d.RecreateNever } st.services) = some e →
      upServices d c E scheds services uo tr =
        (some e, st.trace ++ [.logs
          { AbortOnContainerExit := true, Follow := true, NoColor := uo.NoColor,
            NoLogPrefix := uo.NoLogPrefix,
            LatestRun := d.recreateStrategy uo == d.RecreateNever } st.services,
          .stopContainers st.containers]))
    ∧ Request.stopContainers st.containers ∈
        (upServices d c E scheds services uo tr).2.drop st.trace.length
    ∧ (st.outcomes.map Prod.fst).Perm (services.flatMap fun ps => ps.Containers)
    ∧ (∀ ct res, (ct, res) ∈ st.outcomes →
        ∃ id, res = Except.ok id ∧ id ∈ st.containers.keys
          ∧ ∃ ps ∈ services, ct ∈ ps.Containers ∧ ∃ hs : List Trace,
            (upServiceContainer d c ps ct (d.recreateStrategy uo)).RunsTo E st.trace hs
              (.ret (Except.ok id))
            ∧ ∀ t ∈ hs, tr1.length ≤ t.length) := by
  have hlen : (services.length == 0) = false := by
    cases services with
    | nil => exact absurd rfl hne
    | cons _ _ => rfl
  have hup : upServices d c E scheds services uo tr =
      (attachLogs uo (d.recreateStrategy uo == d.RecreateNever) st.containers st.services).run E
        st.trace := by
    simp [upServices, hlen, hprov, hlaunch, hdet]
  obtain ⟨hfail, hout⟩ := launchLoop_ok d c E (d.recreateStrategy uo) services scheds _ st hlaunch
  have hkeys := launchLoop_keys d c E (d.recreateStrategy uo) services scheds
    { containers := [], services := [], outcomes := [], trace := tr1 } (by simp [successes])
  have hgen := launchLoop_genuine d c E (d.recreateStrategy uo) services services
    (fun _ h => h) scheds
    { containers := [], services := [], outcomes := [], trace := tr1 } tr1.length (le_refl _)
    (by simp)
  rw [hlaunch] at hkeys hgen
  have hlast : ∀ ct res, (ct, res) ∈ st.outcomes →
      ∃ id, res = Except.ok id ∧ id ∈ st.containers.keys
        ∧ ∃ ps ∈ services, ct ∈ ps.Containers ∧ ∃ hs : List Trace,
          (upServiceContainer d c ps ct (d.recreateStrategy uo)).RunsTo E st.trace hs
            (.ret (Except.ok id))
          ∧ ∀ t ∈ hs, tr1.length ≤ t.length := by
    intro ct res hin
    obtain ⟨id, rfl⟩ := ok_of_no_failure (by simpa [failures] using hfail) hin
    exact ⟨id, rfl, hkeys id (List.mem_map.2 ⟨(id, ct), mem_successes.2 hin, rfl⟩),
      hgen ct _ hin⟩
  refine ⟨?_, ?_, ?_, by simpa using hout, hlast⟩
  · intro hlogs
    rw [hup, attachLogs_abort E uo _ _ _ _ habort, hlogs]
  · intro e hlogs
    rw [hup, attachLogs_abort E uo _ _ _ _ habort, hlogs]
  · rw [hup, attachLogs_abort E uo _ _ _ _ habort]
    cases E st.trace (.logs
        { AbortOnContainerExit := true, Follow := true, NoColor := uo.NoColor,
          NoLogPrefix := uo.NoLogPrefix,
          LatestRun := d.recreateStrategy uo == d.RecreateNever } st.services) with
    | none => simp
    | some e => simp

/-- C6. Detached `up`: with `Detach = true`, after successful provisioning and
launch phases `upServices` returns no error, its trace is the one at the end
of the launch phase, and neither the log-attach nor the stop collaborator
was called, for every value of `AbortOnContainerExit`. -/
theorem upServices_detach (d : Decls) (c : Composer) (E : Engine)
    (scheds : List (List Nat)) (services : List Service) (uo : UpOptions) (tr tr1 : Trace)
    (st : UpState)
    (hne : services ≠ [])
    (hdet : uo.Detach = true)
    (hprov : (ensureLoop c uo services).run E tr = (none, tr1))
    (hlaunch : launchLoop d c E (d.recreateStrategy uo) scheds services
      { containers := [], services := [], outcomes := [], trace := tr1 } = (none, st)) :
    upServices d c E scheds services uo tr = (none, st.trace)
    ∧ ∀ r ∈ (upServices d c E scheds services uo tr).2.drop tr.length,
        r.isLogs = false ∧ r.isStop = false := by
  have hlen : (services.length == 0) = false := by
    cases services with
    | nil => exact absurd rfl hne
    | cons _ _ => rfl
  have hup : upServices d c E scheds services uo tr = (none, st.trace) := by
    simp [upServices, hlen, hprov, hlaunch, hdet]
  refine ⟨hup, ?_⟩
  rw [hup]
  have := phases_not_attach d c E (d.recreateStrategy uo) scheds services services uo tr tr1
    none hprov { containers := [], services := [], outcomes := [], trace := tr1 } rfl
  rw [hlaunch] at this
  exact this

/-- Example for C6: a detached `up` of `web` returns after the launch phase. -/
theorem upServices_detach_witness :
    upServices exDecls exComposer (exEngine exFindWeb1 (Except.ok true) none) [[1, 0, 0, 1]]
        [exWebTwo] exDetached [] = (none, exLaunched.trace)
    ∧ ∀ r ∈ (upServices exDecls exComposer (exEngine exFindWeb1 (Except.ok true) none)
          [[1, 0, 0, 1]] [exWebTwo] exDetached []).2.drop ([] : Trace).length,
        r.isLogs = false ∧ r.isStop = false :=
  upServices_detach exDecls exComposer (exEngine exFindWeb1 (Except.ok true) none)
    [[1, 0, 0, 1]] [exWebTwo] exDetached []
    [.ensureImage "nginx" "missing" "" exWebTwo false] exLaunched
    (by decide) rfl (by decide) (by decide)

/-- Example for C5: `db` and `web` are brought up with three containers.  When
the log attach is interrupted with an error, the registry with the three
identifiers `c3`, `c1`, `c2` is passed to the stop collaborator once and the
error is returned; when the log attach returns cleanly, it is passed twice.
Every launch returned an identifier that is a key of that registry. -/
theorem upServices_abort_stops_witness :
    upServices exDecls exComposer
        (exEngine exFindWeb1 (Except.ok true) (some (.new "interrupted"))) [[0], [1, 0, 0, 1]]
        [exDb, exWebTwo] exAttached [] =
      (some (.new "interrupted"),
        exUp.trace ++ [.logs
          { AbortOnContainerExit := true, Follow := true, NoColor := false,
            NoLogPrefix := false, LatestRun := true } ["db", "web"],
          .stopContainers [("c3", exWeb2), ("c1", exWeb1), ("c2", exDb1)]])
    ∧ upServices exDecls exComposer
        (exEngine exFindWeb1 (Except.ok true) none) [[0], [1, 0, 0, 1]]
        [exDb, exWebTwo] exAttached [] =
      (none,
        exUp.trace ++ [.logs
          { AbortOnContainerExit := true, Follow := true, NoColor := false,
            NoLogPrefix := false, LatestRun := true } ["db", "web"],
          .stopContainers [("c3", exWeb2), ("c1", exWeb1), ("c2", exDb1)],
          .stopContainers [("c3", exWeb2), ("c1", exWeb1), ("c2", exDb1)]])
    ∧ (exUp.outcomes.map Prod.fst).Perm ([exDb, exWebTwo].flatMap fun ps => ps.Containers)
    ∧ (∀ ct res, (ct, res) ∈ exUp.outcomes →
        ∃ id, res = Except.ok id ∧ id ∈ Registry.keys [("c3", exWeb2), ("c1", exWeb1), ("c2", exDb1)]
          ∧ ∃ ps ∈ [exDb, exWebTwo], ct ∈ ps.Containers ∧ ∃ hs : List Trace,
            (upServiceContainer exDecls exComposer ps ct "never").RunsTo
              (exEngine exFindWeb1 (Except.ok true) (some (.new "interrupted"))) exUp.trace hs
              (.ret (Except.ok id))
            ∧ ∀ t ∈ hs,
              [Request.ensureImage "postgres" "missing" "" exDb false,
                Request.ensureImage "nginx" "missing" "" exWebTwo false].length ≤ t.length) :=
  have h := upServices_abort_stops exDecls exComposer
    (exEngine exFindWeb1 (Except.ok true) (some (.new "interrupted"))) [[0], [1, 0, 0, 1]]
    [exDb, exWebTwo] exAttached []
    [.ensureImage "postgres" "missing" "" exDb false,
      .ensureImage "nginx" "missing" "" exWebTwo false]
    exUp (by decide) rfl rfl (by decide) (by decide)
  ⟨h.2.1 (.new "interrupted") (by decide),
    (upServices_abort_stops exDecls exComposer
      (exEngine exFindWeb1 (Except.ok true) none) [[0], [1, 0, 0, 1]]
      [exDb, exWebTwo] exAttached []
      [.ensureImage "postgres" "missing" "" exDb false,
        .ensureImage "nginx" "missing" "" exWebTwo false]
      exUp (by decide) rfl rfl (by decide) (by decide)).1 (by decide),
    h.2.2.2.1, h.2.2.2.2⟩

end UpService
